import Mathlib

/-!
Verification development for the vehicle speed-detection engine
(`speed_detection/video_processor.py`, class `VehicleSpeedDetector`).

The Python code is shallowly embedded as executable Lean definitions:

* Python `dict`s (which preserve insertion order and are iterated in that
  order) become association lists `List (Nat × α)` together with the
  operations `dfind` (lookup, first match), `dinsert` (update in place if
  the key is present, append at the end otherwise — exactly Python's
  `d[k] = v`) and `ddelete` (remove the entry — Python's `del d[k]`).
* Machine floats are avoided: geometric comparisons
  `np.sqrt(dx*dx + dy*dy) < c` on integer coordinates are embedded as exact
  comparisons of the squared distance against `c*c` (for the integers that
  occur here, IEEE-754 `sqrt` is correctly rounded and strictly monotone,
  so the two are equivalent); the remaining speed arithmetic is carried out
  over `ℚ`, with the square root appearing in `calculate_speed` abstracted
  as an explicit function argument `sqrtFn : ℚ → ℚ` (instantiated with an
  exact square root on the perfect-square inputs used in concrete
  statements).
* The external recognition engine (easyocr) and the OpenCV image
  transformations are black boxes per the specification; they are embedded
  as function parameters, with engine failure represented by `Except`.
-/

/-- Squared Euclidean distance between two integer pixel positions.
`calculate_distance` in the source returns `np.sqrt` of this quantity; all
comparisons of that value against constants and against each other are
embedded here as exact comparisons of the squares. -/
def distSq (p q : ℤ × ℤ) : ℤ :=
  (p.1 - q.1) ^ 2 + (p.2 - q.2) ^ 2

/-- A license-plate bounding quad as returned by the recognition engine. -/
abbrev Quad := List (ℚ × ℚ)

/-- One entry of a track's position history
(`self.vehicle_tracks[vehicle_id]` holds a list of dicts with keys
`position`, `frame`, `timestamp`, and — added later on some entries only —
`license_plate`, `license_plate_bbox`, `license_plate_confidence`).
Dynamically-added dict keys are embedded as `Option` fields defaulting to
`none`. -/
structure Sample where
  position : ℤ × ℤ
  frame : Nat
  timestamp : ℚ
  license_plate : Option String := none
  license_plate_bbox : Option Quad := none
  license_plate_confidence : Option ℚ := none
deriving Repr, DecidableEq

/-- The mutable tracking state of a `VehicleSpeedDetector` instance:
`vehicle_tracks`, `vehicle_speeds`, `next_vehicle_id`, `inactive_tracks`
and `track_last_seen`. -/
structure DetectorState where
  vehicle_tracks : List (Nat × List Sample)
  vehicle_speeds : List (Nat × ℚ)
  next_vehicle_id : Nat
  inactive_tracks : List (Nat × (ℤ × ℤ))
  track_last_seen : List (Nat × Nat)
deriving Repr, DecidableEq

/-- The state right after `__init__`: empty dicts, `next_vehicle_id = 1`. -/
def initialState : DetectorState :=
  { vehicle_tracks := [], vehicle_speeds := [], next_vehicle_id := 1,
    inactive_tracks := [], track_last_seen := [] }

/-- Python dict lookup `d.get(k)` on an insertion-ordered association
list. -/
def dfind {α : Type} (k : Nat) : List (Nat × α) → Option α
  | [] => none
  | (k2, v) :: t => if k2 = k then some v else dfind k t

/-- Python dict assignment `d[k] = v`: update in place when the key exists,
append at the end otherwise (preserving insertion order). -/
def dinsert {α : Type} (k : Nat) (v : α) : List (Nat × α) → List (Nat × α)
  | [] => [(k, v)]
  | (k2, v2) :: t => if k2 = k then (k, v) :: t else (k2, v2) :: dinsert k v t

/-- Python dict deletion `del d[k]` (keys are unique in a dict, so removing
the first occurrence is exact). -/
def ddelete {α : Type} (k : Nat) : List (Nat × α) → List (Nat × α)
  | [] => []
  | (k2, v2) :: t => if k2 = k then t else (k2, v2) :: ddelete k t

/-- The keys of an association list, in insertion order. -/
def dkeys {α : Type} (l : List (Nat × α)) : List Nat :=
  l.map Prod.fst

/-- `d < m?` where `m? = none` stands for `float('inf')`: the running
minimum-distance test of `assign_vehicle_id`. -/
def ltMin (d : ℤ) : Option ℤ → Prop
  | none => True
  | some m => d < m

instance (d : ℤ) (m : Option ℤ) : Decidable (ltMin d m) := by
  cases m <;> simp [ltMin] <;> infer_instance

/-- Accumulator of the two scan loops of `assign_vehicle_id`:
the running minimum distance (squared; `none` = `inf`), the currently
assigned id, and the two dicts the loops mutate. -/
structure ScanAcc where
  minSq : Option ℤ
  assigned : Option Nat
  track_last_seen : List (Nat × Nat)
  inactive_tracks : List (Nat × (ℤ × ℤ))
deriving Repr, DecidableEq

/-- One iteration of the active-track loop of `assign_vehicle_id`
(lines 114–123): skip tracks with empty position list; compare the distance
to the track's most recent position against the gate and the running
minimum; on improvement take the id and refresh `track_last_seen`. -/
def activeScanStep (center : ℤ × ℤ) (frame_number : Nat)
    (acc : ScanAcc) (entry : Nat × List Sample) : ScanAcc :=
  match entry.2.getLast? with
  | none => acc
  | some lastS =>
    let d := distSq center lastS.position
    if d < 2500 ∧ ltMin d acc.minSq then
      { acc with minSq := some d, assigned := some entry.1,
                 track_last_seen := dinsert entry.1 frame_number acc.track_last_seen }
    else acc

/-- One iteration of the inactive-track loop of `assign_vehicle_id`
(lines 128–139): compare the distance to the dormant track's stored
centroid; on improvement take the id, refresh `track_last_seen` and delete
the entry from `inactive_tracks`. -/
def inactiveScanStep (center : ℤ × ℤ) (frame_number : Nat)
    (acc : ScanAcc) (entry : Nat × (ℤ × ℤ)) : ScanAcc :=
  let d := distSq center entry.2
  if d < 2500 ∧ ltMin d acc.minSq then
    { acc with minSq := some d, assigned := some entry.1,
               track_last_seen := dinsert entry.1 frame_number acc.track_last_seen,
               inactive_tracks := ddelete entry.1 acc.inactive_tracks }
  else acc

/-- The scan accumulator right before the two loops of
`assign_vehicle_id`: `min_distance = inf`, `assigned_id = None`, the two
dicts as in the current state. -/
def initAcc (s : DetectorState) : ScanAcc :=
  { minSq := none, assigned := none,
    track_last_seen := s.track_last_seen, inactive_tracks := s.inactive_tracks }

/-- The two scan loops of `assign_vehicle_id` (lines 110–139): the active
loop always runs; the inactive loop only when the active loop assigned
nothing. -/
def assignScan (s : DetectorState) (center : ℤ × ℤ) (frame_number : Nat) : ScanAcc :=
  let acc1 := s.vehicle_tracks.foldl (activeScanStep center frame_number) (initAcc s)
  if acc1.assigned = none then
    s.inactive_tracks.foldl (inactiveScanStep center frame_number) acc1
  else acc1

/-- `assign_vehicle_id(center_x, center_y, frame_number)` with the default
gate `max_distance = 50` (embedded as squared gate `2500`). Returns the
assigned id together with the updated state; when both scans fail a new id
`next_vehicle_id` is allocated (lines 141–147). -/
def assign_vehicle_id (s : DetectorState) (center : ℤ × ℤ) (frame_number : Nat) :
    Nat × DetectorState :=
  match (assignScan s center frame_number).assigned with
  | some vid =>
    (vid, { s with track_last_seen := (assignScan s center frame_number).track_last_seen,
                   inactive_tracks := (assignScan s center frame_number).inactive_tracks })
  | none =>
    (s.next_vehicle_id,
     { s with next_vehicle_id := s.next_vehicle_id + 1,
              track_last_seen :=
                dinsert s.next_vehicle_id frame_number
                  ((assignScan s center frame_number).track_last_seen),
              inactive_tracks := (assignScan s center frame_number).inactive_tracks })

/-- The body of the aging loop of `process_video` (lines 290–297) for one
id of the key snapshot: when the id's last-seen frame (read from the live
dict, default 0) is more than `track_max_age = 30` frames old and its track
has a nonempty position list, its last position is stored in
`inactive_tracks` and its `track_last_seen` entry deleted. -/
def agingStep (frame_count : Nat) (st : DetectorState) (entry : Nat × Nat) : DetectorState :=
  if (30 : ℤ) < (frame_count : ℤ) - ((dfind entry.1 st.track_last_seen).getD 0 : ℤ) then
    match dfind entry.1 st.vehicle_tracks with
    | some ps =>
      match ps.getLast? with
      | some lastS =>
        { st with
          inactive_tracks := dinsert entry.1 lastS.position st.inactive_tracks,
          track_last_seen := ddelete entry.1 st.track_last_seen }
      | none => st
    | none => st
  else st

/-- The once-per-frame aging pass of `process_video` (lines 286–297):
iterate `agingStep` over a snapshot of `track_last_seen`'s entries. Note
that `vehicle_tracks` is never modified here. -/
def updateInactiveTracks (s : DetectorState) (frame_count : Nat) : DetectorState :=
  s.track_last_seen.foldl (agingStep frame_count) s

/-- The instantaneous speed of one consecutive sample pair in
`calculate_speed` (lines 171–191), or `none` when the pair is filtered out:
elapsed time must be positive, pixel displacement must exceed 1, and the
corrected km/h value must lie strictly between 0 and 200. `sqrtFn` stands
for `np.sqrt` applied to the exact squared pixel distance. -/
def intervalSpeed (sqrtFn : ℚ → ℚ) (ppm : ℚ) (s1 s2 : Sample) : Option ℚ :=
  let distance_pixels := sqrtFn ((distSq s1.position s2.position : ℤ) : ℚ)
  let time_diff := s2.timestamp - s1.timestamp
  if 0 < time_diff ∧ 1 < distance_pixels then
    let distance_meters := distance_pixels / ppm
    let speed_ms := distance_meters / time_diff
    let speed_kmh := speed_ms * (36 / 10)
    let speed_corrected := speed_kmh * (12 / 10)
    if 0 < speed_corrected ∧ speed_corrected < 200 then some speed_corrected
    else none
  else none

/-- The list of surviving instantaneous speeds of `calculate_speed`
(lines 169–191): for `i` in `range(1, min(len(track), 6))`, the filtered
speed of the pair `track[-i-1], track[-i]`, in loop order. -/
def instantSpeeds (sqrtFn : ℚ → ℚ) (ppm : ℚ) (track : List Sample) : List ℚ :=
  (List.range' 1 (min track.length 6 - 1)).filterMap fun i =>
    match track.get? (track.length - i - 1), track.get? (track.length - i) with
    | some s1, some s2 => intervalSpeed sqrtFn ppm s1 s2
    | _, _ => none

/-- The bounded-history update at the top of `calculate_speed`
(lines 152–160): append the new sample, then keep only the last 15
entries. -/
def appendTrunc (track : List Sample) (sample : Sample) : List Sample :=
  let t := track ++ [sample]
  if 15 < t.length then t.drop (t.length - 15) else t

/-- `calculate_speed(vehicle_id, current_pos, frame_number, fps)`
(lines 149–210). `sqrtFn` abstracts `np.sqrt`, `ppm` is
`self.pixels_per_meter`. Returns the reported speed and the updated
state. -/
def calculate_speed (sqrtFn : ℚ → ℚ) (ppm : ℚ) (s : DetectorState)
    (vid : Nat) (pos : ℤ × ℤ) (frame : Nat) (fps : ℚ) : ℚ × DetectorState :=
  let sample : Sample := { position := pos, frame := frame, timestamp := (frame : ℚ) / fps }
  let track := appendTrunc ((dfind vid s.vehicle_tracks).getD []) sample
  let s1 := { s with vehicle_tracks := dinsert vid track s.vehicle_tracks }
  if track.length < 3 then (0, s1)
  else
    let speeds := instantSpeeds sqrtFn ppm track
    if speeds.isEmpty then ((dfind vid s1.vehicle_speeds).getD 0, s1)
    else
      let new_speed := speeds.sum / (speeds.length : ℚ)
      match dfind vid s1.vehicle_speeds with
      | some prev =>
        let smoothed := (1 - 3 / 10) * prev + (3 / 10) * new_speed
        (smoothed, { s1 with vehicle_speeds := dinsert vid smoothed s1.vehicle_speeds })
      | none =>
        (new_speed, { s1 with vehicle_speeds := dinsert vid new_speed s1.vehicle_speeds })

/-- An exact integer square root on perfect squares (floor square root in
general), used to instantiate `sqrtFn` in concrete statements whose pixel
displacements are perfect squares — there `np.sqrt` computes the same
value exactly. -/
def isqrtNat (n : Nat) : Nat :=
  (List.range (n + 1)).foldl (fun a k => if k * k ≤ n then k else a) 0

def ratSqrt (q : ℚ) : ℚ :=
  (isqrtNat q.num.toNat : ℚ)

/-- An image (a numpy `H×W×3` BGR array): height, width, and pixel
contents. Contents only matter to the black-boxed recognition engine. -/
structure Img where
  height : Nat
  width : Nat
  pix : Nat → Nat → Nat × Nat × Nat

/-- `ndarray.size` of an `H×W×3` array. -/
def Img.size (im : Img) : Nat := im.height * im.width * 3

/-- Normalisation of one Python slice bound against an axis of length `n`:
negative indices count from the end, and bounds are clamped to `[0, n]`. -/
def sliceIdx (n : Nat) (i : ℤ) : Nat :=
  if i < 0 then ((n : ℤ) + i).toNat else min i.toNat n

/-- The vehicle crop `frame[y1:y2, x1:x2]` of line 312. -/
def cropImg (im : Img) (y1 y2 x1 x2 : ℤ) : Img :=
  let r1 := sliceIdx im.height y1
  let r2 := sliceIdx im.height y2
  let c1 := sliceIdx im.width x1
  let c2 := sliceIdx im.width x2
  { height := r2 - r1, width := c2 - c1, pix := fun r c => im.pix (r1 + r) (c1 + c) }

/-- One candidate `(bbox, text, conf)` as yielded by
`easyocr.Reader.readtext`. -/
abbrev OcrResult := Quad × String × ℚ

/-- `''.join(c for c in text if c.isalnum())` (line 87). -/
def cleanText (t : String) : String :=
  ⟨t.data.filter Char.isAlphanum⟩

/-- The candidate filter of lines 84–90: confidence above `0.4`, and the
alphanumeric normalisation at least 4 characters long containing both a
digit and a letter. Produces the `license_plates` list of
`(cleaned_text, conf, bbox)` triples, in scan order. -/
def plateCandidates (all : List OcrResult) : List (String × ℚ × Quad) :=
  all.filterMap fun r =>
    if (2 / 5 : ℚ) < r.2.2 then
      let cleaned := cleanText r.2.1
      if 4 ≤ cleaned.length ∧ cleaned.data.any Char.isDigit ∧ cleaned.data.any Char.isAlpha
      then some (cleaned, r.2.2, r.1)
      else none
    else none

/-- Stable insertion used to embed
`license_plates.sort(key=lambda x: x[1], reverse=True)`: an element moves
left past strictly lower confidences only, so equal-confidence candidates
keep their original relative order, exactly as Python's stable sort. -/
def insertByConf (x : String × ℚ × Quad) : List (String × ℚ × Quad) → List (String × ℚ × Quad)
  | [] => [x]
  | y :: ys => if y.2.1 ≤ x.2.1 then x :: y :: ys else y :: insertByConf x ys

/-- Stable sort of the surviving candidates by descending confidence
(line 94). -/
def sortByConfDesc : List (String × ℚ × Quad) → List (String × ℚ × Quad)
  | [] => []
  | x :: xs => insertByConf x (sortByConfDesc xs)

/-- Lines 82–96 of `detect_license_plate`: filter the combined candidate
list, sort it by descending confidence, and return text and bounding quad
of the head, or nothing when no candidate survives. -/
def selectPlate (all : List OcrResult) : Option (String × Quad) :=
  match sortByConfDesc (plateCandidates all) with
  | [] => none
  | p :: _ => some (p.1, p.2.2)

/-- `detect_license_plate(vehicle_crop)` (lines 49–99).

* `engine` embeds `self.ocr_reader.readtext`; a raised exception is an
  `Except.error`.
* `enhanceOf` and `threshOf` embed the OpenCV preprocessing pipelines
  (optional upscale, grayscale, bilateral filter, CLAHE, and additionally
  Otsu thresholding for the second variant) producing the two images the
  engine is run on. As total functions they cannot fail, matching the fact
  that only the recognition engine raises in practice; any raised exception
  lands in the `except` clause, which returns the pair `(None, None)`.
* The early validity return of line 54 is a *bare* `None` (not a pair); it
  is embedded as the outer `none`, while every normal or caught path yields
  `some` of the returned pair. -/
def detect_license_plate (engine : Img → Except String (List OcrResult))
    (enhanceOf threshOf : Img → Img) (vehicle_crop : Img) :
    Option (Option String × Option Quad) :=
  if vehicle_crop.size = 0 ∨ vehicle_crop.height = 0 ∨ vehicle_crop.width = 0 then
    none
  else
    match engine (enhanceOf vehicle_crop) with
    | .error _ => some (none, none)
    | .ok results1 =>
      match engine (threshOf vehicle_crop) with
      | .error _ => some (none, none)
      | .ok results2 =>
        match selectPlate (results1 ++ results2) with
        | some (t, b) => some (some t, some b)
        | none => some (none, none)

/-- The cache lookup of lines 346–350: walk the track history most recent
first and return the first entry carrying a truthy (nonempty) plate string,
together with that entry's stored quad. -/
def getCachedPlate (track : List Sample) : Option (String × Option Quad) :=
  match track.reverse.find? (fun p => !(p.license_plate.getD "").isEmpty) with
  | some p => some (p.license_plate.getD "", p.license_plate_bbox)
  | none => none

/-- The confidence recovery of lines 327–338: rerun the engine on the raw
crop and take the confidence of the first candidate whose normalisation
equals the detected plate; a raised exception or no match leaves the
default `0.0`. -/
def ocrConfidence (engine : Img → Except String (List OcrResult))
    (crop : Img) (lp : String) : ℚ :=
  match engine crop with
  | .error _ => 0
  | .ok rs =>
    match rs.find? (fun r => cleanText r.2.1 == lp) with
    | some r => r.2.2
    | none => 0

/-- Lines 340–342: write plate text, quad and confidence onto the most
recent history entry of a (nonempty) track. -/
def setLastPlate (ps : List Sample) (lp : String) (bb : Option Quad) (conf : ℚ) :
    List Sample :=
  match ps.getLast? with
  | none => ps
  | some lastS =>
    ps.dropLast ++ [{ lastS with license_plate := some lp,
                                 license_plate_bbox := bb,
                                 license_plate_confidence := some conf }]

/-- The confidence field scan of lines 416–420: most recent history entry
carrying a confidence value whose stored plate equals the current
`license_plate` variable; default `0.0`. -/
def recordPlateConfidence (track : List Sample) (lp : Option String) : ℚ :=
  match track.reverse.find? (fun p => p.license_plate_confidence.isSome && (p.license_plate == lp)) with
  | some p => p.license_plate_confidence.getD 0
  | none => 0

/-- `license_plate or 'N/A'` (line 406): `None` and the empty string both
fall back to `"N/A"`. -/
def orNA (lp : Option String) : String :=
  match lp with
  | some t => if t = "" then "N/A" else t
  | none => "N/A"

/-- `round(x, 2)` (half away from ties handled by Mathlib's `round`; the
claims never touch exact `.005` ties, where Python's banker's rounding
could differ). -/
def roundQ2 (q : ℚ) : ℚ :=
  ((round (q * 100) : ℤ) : ℚ) / 100

/-- `get_class_name` (lines 45–47). -/
def get_class_name (class_id : Nat) : String :=
  if class_id = 2 then "car"
  else if class_id = 3 then "motorcycle"
  else if class_id = 5 then "bus"
  else if class_id = 7 then "truck"
  else "unknown"

/-- One raw detection accepted by the loop of lines 263–284. -/
structure Detection where
  bbox : ℤ × ℤ × ℤ × ℤ
  center : ℤ × ℤ
  confidence : ℚ
  class_id : Nat
deriving Repr, DecidableEq

/-- One emitted CSV row (lines 402–413). -/
structure DetectionRecord where
  frame_number : Nat
  vehicle_id : Nat
  speed : ℚ
  license_plate : String
  license_plate_confidence : ℚ
  is_overspeed : Bool
  x1 : ℤ
  y1 : ℤ
  x2 : ℤ
  y2 : ℤ
  confidence : ℚ
  vehicle_class : String
  timestamp : ℚ
deriving Repr, DecidableEq

/-- Everything the per-detection body of `process_video` produces for one
detection: the assigned id, the computed speed, the `license_plate` /
`license_plate_bbox` variables, whether recognition was invoked this frame,
whether the zone-gated speed overlay was drawn, the emitted record (if
any), and the updated tracking state. -/
structure StepResult where
  vid : Nat
  speed : ℚ
  license_plate : Option String
  license_plate_bbox : Option Quad
  ocrInvoked : Bool
  overlayShown : Bool
  record : Option DetectionRecord
  state : DetectorState

/-- The recognition-invoked branch of lines 320–342: run
`detect_license_plate`, and when it yields a truthy plate for a vehicle
with a nonempty track, recover a confidence value and store plate, quad
and confidence on the most recent history entry. The bare-`None` fallback
for `detect_license_plate` (last match arm) is unreachable from
`processDetection`, whose invocation condition `vehicle_crop.size > 0`
makes the validity check of line 53 pass. -/
def ocrInvokeStep (engine : Img → Except String (List OcrResult))
    (enhanceOf threshOf : Img → Img) (vehicle_crop : Img)
    (s2 : DetectorState) (vid : Nat) : Option String × Option Quad × DetectorState :=
  match detect_license_plate engine enhanceOf threshOf vehicle_crop with
  | some (lp, bb) =>
    match lp with
    | some t =>
      if t ≠ "" ∧ (dfind vid s2.vehicle_tracks).isSome then
        match dfind vid s2.vehicle_tracks with
        | some ps =>
          match ps.getLast? with
          | some _ =>
            let conf := ocrConfidence engine vehicle_crop t
            (some t, bb,
             { s2 with vehicle_tracks :=
                 dinsert vid (setLastPlate ps t bb conf) s2.vehicle_tracks })
          | none => (some t, bb, s2)
        | none => (some t, bb, s2)
      else (some t, bb, s2)
    | none => (none, bb, s2)
  | none => (none, none, s2)

/-- The recognition-skipped branch of lines 343–350: look the plate up in
the track's recent history, leaving the state untouched. -/
def cacheLookupStep (s2 : DetectorState) (vid : Nat) :
    Option String × Option Quad × DetectorState :=
  match dfind vid s2.vehicle_tracks with
  | some ps =>
    match getCachedPlate ps with
    | some (t, bb) => (some t, bb, s2)
    | none => (none, none, s2)
  | none => (none, none, s2)

/-- The per-detection body of `process_video` (lines 300–422), drawing
calls omitted but the zone test of line 367 kept as `overlayShown`.
`zone = (zone_x1, zone_y1, zone_x2, zone_y2)` is
`self.speed_detection_zone`, `speed_limit` is `self.speed_limit = 80`. -/
def processDetection (sqrtFn : ℚ → ℚ) (ppm : ℚ)
    (engine : Img → Except String (List OcrResult)) (enhanceOf threshOf : Img → Img)
    (frame : Img) (speed_limit : ℚ) (zone : ℤ × ℤ × ℤ × ℤ)
    (s : DetectorState) (d : Detection) (frame_count : Nat) (fps : ℚ) : StepResult :=
  let center_y := d.center.2
  let vidS := assign_vehicle_id s d.center frame_count
  let vid := vidS.1
  let spS := calculate_speed sqrtFn ppm vidS.2 vid d.center frame_count fps
  let speed := spS.1
  let s2 := spS.2
  let vehicle_crop := cropImg frame d.bbox.2.1 d.bbox.2.2.2 d.bbox.1 d.bbox.2.2.1
  let ocr_frequency : Nat := if speed < 40 then 5 else 10
  let lpStep : Option String × Option Quad × DetectorState :=
    if frame_count % ocr_frequency = 0 ∧ 0 < vehicle_crop.size then
      ocrInvokeStep engine enhanceOf threshOf vehicle_crop s2 vid
    else cacheLookupStep s2 vid
  let license_plate := lpStep.1
  let s3 := lpStep.2.2
  let record : Option DetectionRecord :=
    if 0 < speed then
      some { frame_number := frame_count, vehicle_id := vid, speed := roundQ2 speed,
             license_plate := orNA license_plate,
             license_plate_confidence :=
               recordPlateConfidence ((dfind vid s3.vehicle_tracks).getD []) license_plate,
             is_overspeed := decide (speed_limit < speed),
             x1 := d.bbox.1, y1 := d.bbox.2.1, x2 := d.bbox.2.2.1, y2 := d.bbox.2.2.2,
             confidence := roundQ2 d.confidence,
             vehicle_class := get_class_name d.class_id,
             timestamp := (frame_count : ℚ) / fps }
    else none
  { vid := vid, speed := speed, license_plate := license_plate,
    license_plate_bbox := lpStep.2.1,
    ocrInvoked := decide (frame_count % ocr_frequency = 0 ∧ 0 < vehicle_crop.size),
    overlayShown := decide (zone.2.1 ≤ center_y ∧ center_y ≤ zone.2.2.2),
    record := record, state := s3 }

/-- The per-frame detection loop (lines 299–422 restricted to state and
record effects): the aging pass, then each detection processed in order,
records appended to the accumulated `detection_data`. -/
def processFrame (sqrtFn : ℚ → ℚ) (ppm : ℚ)
    (engine : Img → Except String (List OcrResult)) (enhanceOf threshOf : Img → Img)
    (frame : Img) (speed_limit : ℚ) (zone : ℤ × ℤ × ℤ × ℤ)
    (s : DetectorState) (ds : List Detection) (frame_count : Nat) (fps : ℚ) :
    DetectorState × List DetectionRecord :=
  ds.foldl (fun acc d =>
    let r := processDetection sqrtFn ppm engine enhanceOf threshOf frame speed_limit zone
      acc.1 d frame_count fps
    (r.state, acc.2 ++ r.record.toList))
    (updateInactiveTracks s frame_count, [])

/-- One frame of the tracking pipeline restricted to the claims' tracking
slice: the aging pass (lines 286–297), then for a single detection the id
assignment (line 305) and the position-recording speed update (line 309),
as `process_video` performs them in order. -/
def trackerFrame (sqrtFn : ℚ → ℚ) (ppm fps : ℚ) (s : DetectorState)
    (frame_count : Nat) (c : ℤ × ℤ) : Nat × DetectorState :=
  let s1 := updateInactiveTracks s frame_count
  let vidS := assign_vehicle_id s1 c frame_count
  (vidS.1, (calculate_speed sqrtFn ppm vidS.2 vidS.1 c frame_count fps).2)

/-- The state after processing `n` frames (numbered `1..n`, as
`frame_count` is incremented before processing), each containing the single
detection with centroid `cs (frame-1)`, starting at `__init__`'s state. -/
def runSoloTrack (sqrtFn : ℚ → ℚ) (ppm fps : ℚ) (cs : ℕ → ℤ × ℤ) : ℕ → DetectorState
  | 0 => initialState
  | n + 1 => (trackerFrame sqrtFn ppm fps (runSoloTrack sqrtFn ppm fps cs n) (n + 1) (cs n)).2

/-!
Concrete replayed scenario used by several refutations: a vehicle is
detected at `(0, 0)` in frame 1 and then disappears. Frames 2–31 have no
detections (only the aging pass runs, without effect; at frame 31 the track
is unseen for exactly 30 frames, not yet beyond the threshold). At frame 32
the aging pass demotes the track. The vehicle reappears at `(0, 30)` in
frame 32, drifts to `(0, 60)` and `(0, 90)` in frames 33–34, and a new
detection appears at `(0, 0)` in frame 35. All pixel displacements involved
in speed computation are perfect squares, so `ratSqrt` agrees exactly with
`np.sqrt`. -/

def c2Frame1 : DetectorState := (trackerFrame ratSqrt 8 1 initialState 1 (0, 0)).2

def c2Idle : DetectorState :=
  (List.range' 2 30).foldl (fun st f => updateInactiveTracks st f) c2Frame1

def c2Aged : DetectorState := updateInactiveTracks c2Idle 32

def c2F32 : DetectorState := (trackerFrame ratSqrt 8 1 c2Idle 32 (0, 30)).2

def c2F33 : DetectorState := (trackerFrame ratSqrt 8 1 c2F32 33 (0, 60)).2

def c2F34 : DetectorState := (trackerFrame ratSqrt 8 1 c2F33 34 (0, 90)).2

def c2F35Pre : DetectorState := updateInactiveTracks c2F34 35

/-- A plausible mid-run state with two active tracks whose last positions
are `(0, 0)` and `(30, 0)`, both last seen at frame 5. -/
def c3State : DetectorState :=
  { vehicle_tracks :=
      [(1, [{ position := (0, 0), frame := 5, timestamp := 5 }]),
       (2, [{ position := (30, 0), frame := 5, timestamp := 5 }])],
    vehicle_speeds := [], next_vehicle_id := 3, inactive_tracks := [],
    track_last_seen := [(1, 5), (2, 5)] }

def c4S1 : DetectorState := (calculate_speed ratSqrt 8 initialState 1 (0, 0) 1 1).2

def c4S2 : DetectorState := (calculate_speed ratSqrt 8 c4S1 1 (1, 0) 2 1).2

/-- A track with two samples 2 pixels apart and no prior smoothed speed. -/
def c4WState : DetectorState :=
  { vehicle_tracks :=
      [(2, [{ position := (0, 0), frame := 1, timestamp := 1 },
            { position := (2, 0), frame := 2, timestamp := 2 }])],
    vehicle_speeds := [], next_vehicle_id := 3, inactive_tracks := [],
    track_last_seen := [(2, 2)] }

/-- Like `c4WState` but with a prior smoothed speed of 2 km/h stored for
the track. -/
def c5State : DetectorState :=
  { vehicle_tracks :=
      [(1, [{ position := (0, 0), frame := 1, timestamp := 1 },
            { position := (2, 0), frame := 2, timestamp := 2 }])],
    vehicle_speeds := [(1, 2)], next_vehicle_id := 2, inactive_tracks := [],
    track_last_seen := [(1, 2)] }

/-- A recognition engine producing three candidates: a high-confidence
plate-like text with punctuation, a letters-only text, and a lower
confidence plate-like text. -/
def c8Engine : Img → Except String (List OcrResult) :=
  fun _ => .ok [([], "AB-12", 9 / 10), ([], "zz", 1), ([(0, 0)], "C3D4", 1 / 2)]

/-- A recognition engine that raises on every crop. -/
def c9Engine : Img → Except String (List OcrResult) :=
  fun _ => .error "cuda out of memory"

/-- A nonempty 10×10 crop. -/
def smallImg : Img := { height := 10, width := 10, pix := fun _ _ => (0, 0, 0) }

/-- A plateless history sample. -/
def plainSample : Sample := { position := (0, 0), frame := 1, timestamp := 1 }

/-- A history sample carrying a cached plate. -/
def platedSample : Sample :=
  { position := (0, 0), frame := 1, timestamp := 1, license_plate := some "AB12",
    license_plate_confidence := some (9 / 10) }

/-!
Helper lemmas: association-list dictionaries and fold invariants.
-/

theorem dfind_dinsert_self {α : Type} (k : Nat) (v : α) (l : List (Nat × α)) :
    dfind k (dinsert k v l) = some v := by
  induction l with
  | nil => simp [dinsert, dfind]
  | cons e t ih =>
    by_cases h : e.1 = k
    · simp [dinsert, dfind, h]
    · simp [dinsert, dfind, h, ih]

theorem dfind_dinsert_ne {α : Type} {k k2 : Nat} (v : α) (l : List (Nat × α))
    (h : k ≠ k2) : dfind k2 (dinsert k v l) = dfind k2 l := by
  induction l with
  | nil => simp [dinsert, dfind, h]
  | cons e t ih =>
    by_cases he : e.1 = k
    · simp [dinsert, dfind, he, h]
    · simp only [dinsert, dfind, if_neg he]
      by_cases he2 : e.1 = k2 <;> simp [he2, ih]

theorem dfind_ddelete_ne {α : Type} {k k2 : Nat} (l : List (Nat × α))
    (h : k ≠ k2) : dfind k2 (ddelete k l) = dfind k2 l := by
  induction l with
  | nil => simp [ddelete, dfind]
  | cons e t ih =>
    obtain ⟨e1, e2⟩ := e
    by_cases he : e1 = k
    · have h2 : ¬ e1 = k2 := by rw [he]; exact h
      simp [ddelete, dfind, he, h2, h]
    · simp only [ddelete, dfind, if_neg he]
      by_cases he2 : e1 = k2 <;> simp [he2, ih]

theorem dfind_eq_none_of_not_mem {α : Type} {k : Nat} {l : List (Nat × α)}
    (h : k ∉ dkeys l) : dfind k l = none := by
  induction l with
  | nil => simp [dfind]
  | cons e t ih =>
    obtain ⟨e1, e2⟩ := e
    simp only [dkeys, List.map_cons, List.mem_cons, not_or] at h
    obtain ⟨h1, h2⟩ := h
    simp only [dfind, if_neg (fun he : e1 = k => h1 he.symm)]
    exact ih h2

theorem dfind_ddelete_self {α : Type} {k : Nat} {l : List (Nat × α)}
    (h : (dkeys l).Nodup) : dfind k (ddelete k l) = none := by
  induction l with
  | nil => simp [ddelete, dfind]
  | cons e t ih =>
    simp only [dkeys, List.map_cons, List.nodup_cons] at h
    by_cases he : e.1 = k
    · simp only [ddelete, if_pos he]
      exact dfind_eq_none_of_not_mem (by rw [← he]; exact h.1)
    · simp only [ddelete, if_neg he, dfind, if_neg he]
      exact ih h.2

theorem dfind_of_mem_nodup {α : Type} {k : Nat} {v : α} {l : List (Nat × α)}
    (hm : (k, v) ∈ l) (h : (dkeys l).Nodup) : dfind k l = some v := by
  induction l with
  | nil => simp at hm
  | cons e t ih =>
    simp only [dkeys, List.map_cons, List.nodup_cons] at h
    rcases List.mem_cons.mp hm with he | ht
    · rw [← he]; simp [dfind]
    · have hk : e.1 ≠ k := by
        intro hek
        exact h.1 (hek ▸ (List.mem_map.mpr ⟨(k, v), ht, rfl⟩))
      simp only [dfind, if_neg hk]
      exact ih ht h.2

theorem mem_of_dfind_eq_some {α : Type} {k : Nat} {v : α} {l : List (Nat × α)}
    (h : dfind k l = some v) : (k, v) ∈ l := by
  induction l with
  | nil => simp [dfind] at h
  | cons e t ih =>
    obtain ⟨e1, e2⟩ := e
    by_cases he : e1 = k
    · simp only [dfind, if_pos he] at h
      injection h with h2
      exact List.mem_cons.mpr (Or.inl (by rw [← h2, he]))
    · simp only [dfind, if_neg he] at h
      exact List.mem_cons_of_mem _ (ih h)

theorem dkeys_ddelete_sublist {α : Type} (k : Nat) (l : List (Nat × α)) :
    (dkeys (ddelete k l)).Sublist (dkeys l) := by
  induction l with
  | nil => simp [ddelete, dkeys]
  | cons e t ih =>
    by_cases he : e.1 = k
    · simp only [ddelete, if_pos he, dkeys, List.map_cons]
      exact (List.sublist_cons_self _ _)
    · simp only [ddelete, if_neg he, dkeys, List.map_cons]
      exact ih.cons₂ _

theorem dkeys_nodup_ddelete {α : Type} {k : Nat} {l : List (Nat × α)}
    (h : (dkeys l).Nodup) : (dkeys (ddelete k l)).Nodup :=
  (dkeys_ddelete_sublist k l).nodup h

/-- A fold preserves a property preserved by every step taken on a list
element. -/
theorem foldl_inv_mem {α β : Type} {P : β → Prop} (f : β → α → β) :
    ∀ (l : List α) (b : β), (∀ b2 a, a ∈ l → P b2 → P (f b2 a)) → P b →
      P (l.foldl f b) := by
  intro l
  induction l with
  | nil => intro b _ hb; simpa using hb
  | cons e t ih =>
    intro b hstep hb
    simp only [List.foldl_cons]
    exact ih (f b e) (fun b2 a ha => hstep b2 a (List.mem_cons_of_mem _ ha))
      (hstep b e (List.mem_cons_self _ _) hb)

/-- A fold over steps that do nothing on the given list is the identity. -/
theorem foldl_id_of_mem {α β : Type} (f : β → α → β) :
    ∀ (l : List α) (b : β), (∀ b2 a, a ∈ l → f b2 a = b2) → l.foldl f b = b := by
  intro l
  induction l with
  | nil => intro b _; simp
  | cons e t ih =>
    intro b hstep
    simp only [List.foldl_cons, hstep b e (List.mem_cons_self _ _)]
    exact ih b (fun b2 a ha => hstep b2 a (List.mem_cons_of_mem _ ha))

/-!
Claim C1: the aging pass.
-/

theorem agingStep_vehicle_tracks (f : Nat) (st : DetectorState) (e : Nat × Nat) :
    (agingStep f st e).vehicle_tracks = st.vehicle_tracks := by
  unfold agingStep
  repeat' split
  all_goals rfl

theorem agingStep_last_seen_other {f : Nat} {st : DetectorState} {e : Nat × Nat}
    {vid : Nat} (h : e.1 ≠ vid) :
    dfind vid (agingStep f st e).track_last_seen = dfind vid st.track_last_seen := by
  unfold agingStep
  repeat' split
  all_goals first
  | rfl
  | exact dfind_ddelete_ne _ h

theorem agingStep_inactive_other {f : Nat} {st : DetectorState} {e : Nat × Nat}
    {vid : Nat} (h : e.1 ≠ vid) :
    dfind vid (agingStep f st e).inactive_tracks = dfind vid st.inactive_tracks := by
  unfold agingStep
  repeat' split
  all_goals first
  | rfl
  | exact dfind_dinsert_ne _ _ h

theorem agingStep_nodup {f : Nat} {st : DetectorState} (e : Nat × Nat)
    (h : (dkeys st.track_last_seen).Nodup) :
    (dkeys (agingStep f st e).track_last_seen).Nodup := by
  unfold agingStep
  repeat' split
  all_goals first
  | exact h
  | exact dkeys_nodup_ddelete h

theorem agingFold_tracks (f : Nat) :
    ∀ (l : List (Nat × Nat)) (st : DetectorState),
      (l.foldl (agingStep f) st).vehicle_tracks = st.vehicle_tracks := by
  intro l
  induction l with
  | nil => intro st; rfl
  | cons e t ih =>
    intro st
    simp only [List.foldl_cons, ih, agingStep_vehicle_tracks]

theorem agingFold_nodup (f : Nat) :
    ∀ (l : List (Nat × Nat)) (st : DetectorState),
      (dkeys st.track_last_seen).Nodup →
      (dkeys ((l.foldl (agingStep f) st).track_last_seen)).Nodup := by
  intro l
  induction l with
  | nil => intro st h; exact h
  | cons e t ih =>
    intro st h
    exact ih _ (agingStep_nodup e h)

theorem agingFold_other (f : Nat) {vid : Nat} :
    ∀ (l : List (Nat × Nat)) (st : DetectorState), (∀ e ∈ l, e.1 ≠ vid) →
      dfind vid ((l.foldl (agingStep f) st).track_last_seen) =
        dfind vid st.track_last_seen ∧
      dfind vid ((l.foldl (agingStep f) st).inactive_tracks) =
        dfind vid st.inactive_tracks := by
  intro l
  induction l with
  | nil => intro st _; exact ⟨rfl, rfl⟩
  | cons e t ih =>
    intro st h
    have he := h e (List.mem_cons_self _ _)
    have iht := ih (agingStep f st e) (fun e2 h2 => h e2 (List.mem_cons_of_mem _ h2))
    simp only [List.foldl_cons]
    exact ⟨iht.1.trans (agingStep_last_seen_other he),
           iht.2.trans (agingStep_inactive_other he)⟩

theorem dkeys_not_mem_of_dfind_none {α : Type} {k : Nat} {l : List (Nat × α)}
    (h : dfind k l = none) : k ∉ dkeys l := by
  induction l with
  | nil => simp [dkeys]
  | cons e t ih =>
    obtain ⟨e1, e2⟩ := e
    by_cases he : e1 = k
    · simp [dfind, he] at h
    · simp only [dfind, if_neg he] at h
      simp only [dkeys, List.map_cons, List.mem_cons, not_or]
      exact ⟨fun hk => he hk.symm, ih h⟩

/-- Splitting of a dict with Nodup keys at an entry found by `dfind`. -/
theorem dict_split {α : Type} {k : Nat} {v : α} {l : List (Nat × α)}
    (h : dfind k l = some v) (hnd : (dkeys l).Nodup) :
    ∃ pre post, l = pre ++ (k, v) :: post ∧
      (∀ e ∈ pre, e.1 ≠ k) ∧ (∀ e ∈ post, e.1 ≠ k) := by
  obtain ⟨pre, post, hsplit⟩ := List.append_of_mem (mem_of_dfind_eq_some h)
  refine ⟨pre, post, hsplit, ?_, ?_⟩
  · intro e he hk
    rw [hsplit] at hnd
    simp only [dkeys, List.map_append, List.map_cons] at hnd
    have hdis := (List.nodup_append.mp hnd).2.2
    exact hdis (hk ▸ (List.mem_map.mpr ⟨e, he, rfl⟩)) (List.mem_cons_self _ _)
  · intro e he hk
    rw [hsplit] at hnd
    simp only [dkeys, List.map_append, List.map_cons] at hnd
    have hpost := (List.nodup_append.mp hnd).2.1
    rw [List.nodup_cons] at hpost
    exact hpost.1 (hk ▸ (List.mem_map.mpr ⟨e, he, rfl⟩))

theorem agingStep_demote {f : Nat} {st : DetectorState} {vid ls : Nat}
    {ps : List Sample} {lastS : Sample}
    (hfind : dfind vid st.track_last_seen = some ls)
    (hold : (30 : ℤ) < (f : ℤ) - (ls : ℤ))
    (hps : dfind vid st.vehicle_tracks = some ps)
    (hlast : ps.getLast? = some lastS) :
    agingStep f st (vid, ls) =
      { st with inactive_tracks := dinsert vid lastS.position st.inactive_tracks,
                track_last_seen := ddelete vid st.track_last_seen } := by
  unfold agingStep
  simp only [hfind, Option.getD_some, hps, hlast]
  rw [if_pos hold]

theorem agingStep_not_old {f : Nat} {st : DetectorState} {vid ls : Nat}
    (hfind : dfind vid st.track_last_seen = some ls)
    (hnot : ¬ ((30 : ℤ) < (f : ℤ) - (ls : ℤ))) :
    agingStep f st (vid, ls) = st := by
  unfold agingStep
  simp only [hfind, Option.getD_some]
  rw [if_neg hnot]

theorem agingStep_no_history {f : Nat} {st : DetectorState} {vid ls : Nat}
    (hemp : ∀ ps, dfind vid st.vehicle_tracks = some ps → ps = []) :
    agingStep f st (vid, ls) = st := by
  unfold agingStep
  cases hdf : dfind vid st.vehicle_tracks with
  | none => simp [hdf]
  | some ps =>
    have hn : ps = [] := hemp ps hdf
    subst hn
    simp [hdf]

/-- **Claim C1** (corrected). For every frame index `f`, the once-per-frame
aging step demotes exactly those tracked ids whose last-seen frame index is
more than 30 frames older than `f` and whose recorded position history is
nonempty: each demoted track's last known centroid is added to the dormant
set and its last-seen entry is removed; but — contrary to the original
claim — its bounded position history is **not** discarded: `vehicle_tracks`
is left entirely unchanged by the pass, so the demoted track simultaneously
remains matchable by the active-track scan. Tracks not meeting the demotion
condition are left untouched. -/
theorem aging_demotion_spec (s : DetectorState) (f : Nat)
    (hnd : (dkeys s.track_last_seen).Nodup) (vid : Nat) :
    (updateInactiveTracks s f).vehicle_tracks = s.vehicle_tracks ∧
    (∀ ls ps lastS, dfind vid s.track_last_seen = some ls →
      (30 : ℤ) < (f : ℤ) - (ls : ℤ) →
      dfind vid s.vehicle_tracks = some ps → ps.getLast? = some lastS →
      dfind vid (updateInactiveTracks s f).inactive_tracks = some lastS.position ∧
      dfind vid (updateInactiveTracks s f).track_last_seen = none) ∧
    (∀ ls, dfind vid s.track_last_seen = some ls →
      ¬ ((30 : ℤ) < (f : ℤ) - (ls : ℤ)) →
      dfind vid (updateInactiveTracks s f).track_last_seen = some ls ∧
      dfind vid (updateInactiveTracks s f).inactive_tracks =
        dfind vid s.inactive_tracks) ∧
    (∀ ls, dfind vid s.track_last_seen = some ls →
      (∀ ps, dfind vid s.vehicle_tracks = some ps → ps = []) →
      dfind vid (updateInactiveTracks s f).track_last_seen = some ls ∧
      dfind vid (updateInactiveTracks s f).inactive_tracks =
        dfind vid s.inactive_tracks) ∧
    (dfind vid s.track_last_seen = none →
      dfind vid (updateInactiveTracks s f).track_last_seen = none ∧
      dfind vid (updateInactiveTracks s f).inactive_tracks =
        dfind vid s.inactive_tracks) := by
  refine ⟨agingFold_tracks f _ _, ?_, ?_, ?_, ?_⟩
  · -- demotion
    intro ls ps lastS hls hold hps hlast
    obtain ⟨pre, post, hsplit, hpre, hpost⟩ := dict_split hls hnd
    have hfold : updateInactiveTracks s f =
        post.foldl (agingStep f)
          (agingStep f (pre.foldl (agingStep f) s) (vid, ls)) := by
      unfold updateInactiveTracks
      rw [hsplit, List.foldl_append, List.foldl_cons]
    have hpre2 := agingFold_other f pre s hpre
    have htr : (pre.foldl (agingStep f) s).vehicle_tracks = s.vehicle_tracks :=
      agingFold_tracks f _ _
    have hnd0 : (dkeys ((pre.foldl (agingStep f) s).track_last_seen)).Nodup :=
      agingFold_nodup f pre s hnd
    have hfind0 : dfind vid ((pre.foldl (agingStep f) s).track_last_seen) = some ls :=
      hpre2.1.trans hls
    have hps0 : dfind vid ((pre.foldl (agingStep f) s).vehicle_tracks) = some ps := by
      rw [htr]; exact hps
    have hstep := agingStep_demote hfind0 hold hps0 hlast
    have hpost2 := agingFold_other f post
      (agingStep f (pre.foldl (agingStep f) s) (vid, ls)) hpost
    rw [hfold]
    constructor
    · rw [hpost2.2, hstep]
      exact dfind_dinsert_self _ _ _
    · rw [hpost2.1, hstep]
      exact dfind_ddelete_self hnd0
  · -- present but not old enough
    intro ls hls hnot
    obtain ⟨pre, post, hsplit, hpre, hpost⟩ := dict_split hls hnd
    have hfold : updateInactiveTracks s f =
        post.foldl (agingStep f)
          (agingStep f (pre.foldl (agingStep f) s) (vid, ls)) := by
      unfold updateInactiveTracks
      rw [hsplit, List.foldl_append, List.foldl_cons]
    have hpre2 := agingFold_other f pre s hpre
    have hfind0 : dfind vid ((pre.foldl (agingStep f) s).track_last_seen) = some ls :=
      hpre2.1.trans hls
    have hstep := agingStep_not_old hfind0 hnot
    have hpost2 := agingFold_other f post (pre.foldl (agingStep f) s) hpost
    rw [hfold, hstep]
    exact ⟨hpost2.1.trans hfind0, hpost2.2.trans hpre2.2⟩
  · -- present but empty or missing history
    intro ls hls hemp
    obtain ⟨pre, post, hsplit, hpre, hpost⟩ := dict_split hls hnd
    have hfold : updateInactiveTracks s f =
        post.foldl (agingStep f)
          (agingStep f (pre.foldl (agingStep f) s) (vid, ls)) := by
      unfold updateInactiveTracks
      rw [hsplit, List.foldl_append, List.foldl_cons]
    have hpre2 := agingFold_other f pre s hpre
    have htr : (pre.foldl (agingStep f) s).vehicle_tracks = s.vehicle_tracks :=
      agingFold_tracks f _ _
    have hfind0 : dfind vid ((pre.foldl (agingStep f) s).track_last_seen) = some ls :=
      hpre2.1.trans hls
    have hstep : agingStep f (pre.foldl (agingStep f) s) (vid, ls) =
        pre.foldl (agingStep f) s :=
      agingStep_no_history (fun ps hps => hemp ps (by rw [← htr]; exact hps))
    have hpost2 := agingFold_other f post (pre.foldl (agingStep f) s) hpost
    rw [hfold, hstep]
    exact ⟨hpost2.1.trans hfind0, hpost2.2.trans hpre2.2⟩
  · -- not tracked at all
    intro hls
    have hall : ∀ e ∈ s.track_last_seen, e.1 ≠ vid := by
      intro e he hk
      exact dkeys_not_mem_of_dfind_none hls
        (List.mem_map.mpr ⟨e, he, hk⟩)
    have h2 := agingFold_other f s.track_last_seen s hall
    exact ⟨h2.1.trans hls, h2.2⟩

unseal Rat.add Rat.mul Rat.inv Rat.sub in
/-- **Claim C1**, counterexample to the original statement. In a run
replayed from the initial state (one detection at `(0,0)` in frame 1, none
afterwards), the aging pass of frame 32 demotes track 1 — it appears in the
dormant set with its last centroid and its last-seen entry is gone — but
its position history is *not* discarded (`vehicle_tracks` still holds the
recorded sample), and on the same frame the active-track scan still
matches a nearby detection to track 1, which simultaneously remains in the
dormant set. Hence the demoted track is neither "removed from the active
track set" nor is its history "discarded". -/
theorem aging_demotion_cex :
    dfind 1 c2Aged.inactive_tracks = some (0, 0) ∧
    dfind 1 c2Aged.track_last_seen = none ∧
    dfind 1 c2Aged.vehicle_tracks =
      some [{ position := (0, 0), frame := 1, timestamp := 1 }] ∧
    (assign_vehicle_id c2Aged (0, 30) 32).1 = 1 ∧
    dfind 1 (assign_vehicle_id c2Aged (0, 30) 32).2.inactive_tracks = some (0, 0) := by
  decide

unseal Rat.add Rat.mul Rat.inv Rat.sub in
/-- Witness for `aging_demotion_spec` at a concrete reachable input: in the
replayed run, track 1 (last seen at frame 1, nonempty history) is demoted
by the aging pass of frame 32. -/
theorem aging_demotion_witness :
    (dkeys c2Idle.track_last_seen).Nodup ∧
    (dfind 1 (updateInactiveTracks c2Idle 32).inactive_tracks = some (0, 0) ∧
     dfind 1 (updateInactiveTracks c2Idle 32).track_last_seen = none) := by
  refine ⟨by decide, ?_⟩
  exact (aging_demotion_spec c2Idle 32 (by decide) 1).2.1 1
    [{ position := (0, 0), frame := 1, timestamp := 1 }]
    { position := (0, 0), frame := 1, timestamp := 1 }
    (by decide) (by decide) (by decide) (by decide)

/-!
Claim C3: which tracks a call to `assign_vehicle_id` touches.
-/

theorem activeScanStep_inactive (center : ℤ × ℤ) (f : Nat) (acc : ScanAcc)
    (e : Nat × List Sample) :
    (activeScanStep center f acc e).inactive_tracks = acc.inactive_tracks := by
  simp only [activeScanStep]
  split
  · rfl
  · split <;> rfl

theorem activeScanStep_lastseen_of_assigned {center : ℤ × ℤ} {f : Nat}
    (acc : ScanAcc) (e : Nat × List Sample)
    (h : ∀ a, acc.assigned = some a → dfind a acc.track_last_seen = some f) :
    ∀ a, (activeScanStep center f acc e).assigned = some a →
      dfind a ((activeScanStep center f acc e).track_last_seen) = some f := by
  unfold activeScanStep
  cases hl : e.2.getLast? with
  | none => exact h
  | some lastS =>
    simp only []
    split
    · intro a ha
      simp only at ha
      injection ha with ha
      rw [← ha]
      exact dfind_dinsert_self _ _ _
    · exact h

theorem inactiveScanStep_lastseen_of_assigned {center : ℤ × ℤ} {f : Nat}
    (acc : ScanAcc) (e : Nat × (ℤ × ℤ))
    (h : ∀ a, acc.assigned = some a → dfind a acc.track_last_seen = some f) :
    ∀ a, (inactiveScanStep center f acc e).assigned = some a →
      dfind a ((inactiveScanStep center f acc e).track_last_seen) = some f := by
  unfold inactiveScanStep
  simp only []
  split
  · intro a ha
    simp only at ha
    injection ha with ha
    rw [← ha]
    exact dfind_dinsert_self _ _ _
  · exact h

theorem assignScan_lastseen_of_assigned (s : DetectorState) (center : ℤ × ℤ) (f : Nat) :
    ∀ a, (assignScan s center f).assigned = some a →
      dfind a ((assignScan s center f).track_last_seen) = some f := by
  have h1 := foldl_inv_mem (activeScanStep center f) s.vehicle_tracks (initAcc s)
    (fun acc e _ hp => activeScanStep_lastseen_of_assigned acc e hp)
    (fun a ha => by simp [initAcc] at ha)
  unfold assignScan
  simp only []
  split
  · exact foldl_inv_mem (inactiveScanStep center f) s.inactive_tracks _
      (fun acc e _ hp => inactiveScanStep_lastseen_of_assigned acc e hp) h1
  · exact h1

theorem activeScanStep_untouched {center : ℤ × ℤ} {f w : Nat}
    (acc : ScanAcc) (e : Nat × List Sample)
    (hw : e.1 = w → ∀ lastS ∈ e.2.getLast?, 2500 ≤ distSq center lastS.position) :
    dfind w ((activeScanStep center f acc e).track_last_seen) =
      dfind w acc.track_last_seen := by
  unfold activeScanStep
  cases hl : e.2.getLast? with
  | none => rfl
  | some lastS =>
    simp only []
    split
    · rename_i hcond
      by_cases hew : e.1 = w
      · exact absurd hcond.1 (not_lt.mpr (hw hew lastS (by rw [hl]; rfl)))
      · exact dfind_dinsert_ne _ _ hew
    · rfl

theorem inactiveScanStep_untouched {center : ℤ × ℤ} {f w : Nat}
    (acc : ScanAcc) (e : Nat × (ℤ × ℤ))
    (hw : e.1 = w → 2500 ≤ distSq center e.2) :
    dfind w ((inactiveScanStep center f acc e).track_last_seen) =
      dfind w acc.track_last_seen ∧
    dfind w ((inactiveScanStep center f acc e).inactive_tracks) =
      dfind w acc.inactive_tracks := by
  unfold inactiveScanStep
  simp only []
  split
  · rename_i hcond
    by_cases hew : e.1 = w
    · exact absurd hcond.1 (not_lt.mpr (hw hew))
    · exact ⟨dfind_dinsert_ne _ _ hew, dfind_ddelete_ne _ hew⟩
  · exact ⟨rfl, rfl⟩

theorem assignScan_untouched (s : DetectorState) (center : ℤ × ℤ) (f : Nat) (w : Nat)
    (hw1 : ∀ e ∈ s.vehicle_tracks, e.1 = w →
      ∀ lastS ∈ e.2.getLast?, 2500 ≤ distSq center lastS.position)
    (hw2 : ∀ e ∈ s.inactive_tracks, e.1 = w → 2500 ≤ distSq center e.2) :
    dfind w ((assignScan s center f).track_last_seen) = dfind w s.track_last_seen ∧
    dfind w ((assignScan s center f).inactive_tracks) = dfind w s.inactive_tracks := by
  have h1 := foldl_inv_mem (activeScanStep center f) s.vehicle_tracks (initAcc s)
    (P := fun acc => dfind w acc.track_last_seen = dfind w s.track_last_seen ∧
      dfind w acc.inactive_tracks = dfind w s.inactive_tracks)
    (fun acc e he hp =>
      ⟨(activeScanStep_untouched acc e (hw1 e he)).trans hp.1,
       (activeScanStep_inactive center f acc e) ▸ hp.2⟩)
    ⟨rfl, rfl⟩
  unfold assignScan
  simp only []
  split
  · exact foldl_inv_mem (inactiveScanStep center f) s.inactive_tracks _
      (P := fun acc => dfind w acc.track_last_seen = dfind w s.track_last_seen ∧
        dfind w acc.inactive_tracks = dfind w s.inactive_tracks)
      (fun acc e he hp =>
        ⟨(inactiveScanStep_untouched acc e (hw2 e he)).1.trans hp.1,
         (inactiveScanStep_untouched acc e (hw2 e he)).2.trans hp.2⟩)
      h1
  · exact h1

theorem assign_preserves_tracks (s : DetectorState) (center : ℤ × ℤ) (f : Nat) :
    (assign_vehicle_id s center f).2.vehicle_tracks = s.vehicle_tracks ∧
    (assign_vehicle_id s center f).2.vehicle_speeds = s.vehicle_speeds ∧
    ((assign_vehicle_id s center f).2.next_vehicle_id = s.next_vehicle_id ∨
     (assign_vehicle_id s center f).2.next_vehicle_id = s.next_vehicle_id + 1) := by
  unfold assign_vehicle_id
  cases h : (assignScan s center f).assigned with
  | some vid => simp [h]
  | none => simp [h]

/-- **Claim C3** (corrected). A call to `assign_vehicle_id` always sets the
last-seen frame index of the track it returns to the current frame; but it
does *not* refresh "exactly" the bound track's state — during the scans,
every successively nearer in-gate candidate also gets its last-seen index
refreshed (and, in the dormant branch, is deleted from the dormant set).
What does hold, and is proved here: any track `w` whose recorded positions
are all at least the distance gate away from the detection (both its active
last position and its dormant centroid), and which is not the freshly
allocated id, has its last-seen entry and its dormant-set entry left
unchanged by the call; and the call never touches `vehicle_tracks` or
`vehicle_speeds`. -/
theorem assign_refresh_scope_spec (s : DetectorState) (center : ℤ × ℤ) (f : Nat)
    (w : Nat)
    (hw1 : ∀ e ∈ s.vehicle_tracks, e.1 = w →
      ∀ lastS ∈ e.2.getLast?, 2500 ≤ distSq center lastS.position)
    (hw2 : ∀ e ∈ s.inactive_tracks, e.1 = w → 2500 ≤ distSq center e.2)
    (hw3 : w ≠ s.next_vehicle_id) :
    dfind (assign_vehicle_id s center f).1
      ((assign_vehicle_id s center f).2.track_last_seen) = some f ∧
    dfind w ((assign_vehicle_id s center f).2.track_last_seen) =
      dfind w s.track_last_seen ∧
    dfind w ((assign_vehicle_id s center f).2.inactive_tracks) =
      dfind w s.inactive_tracks ∧
    (assign_vehicle_id s center f).2.vehicle_tracks = s.vehicle_tracks ∧
    (assign_vehicle_id s center f).2.vehicle_speeds = s.vehicle_speeds := by
  have hscan := assignScan_lastseen_of_assigned s center f
  have hunt := assignScan_untouched s center f w hw1 hw2
  have hpres := assign_preserves_tracks s center f
  refine ⟨?_, ?_, ?_, hpres.1, hpres.2.1⟩
  · unfold assign_vehicle_id
    cases h : (assignScan s center f).assigned with
    | some vid =>
      simp only [h]
      exact hscan vid h
    | none =>
      simp only [h]
      exact dfind_dinsert_self _ _ _
  · unfold assign_vehicle_id
    cases h : (assignScan s center f).assigned with
    | some vid =>
      simp only [h]
      exact hunt.1
    | none =>
      simp only [h]
      exact (dfind_dinsert_ne _ _ (fun hx => hw3 hx.symm)).trans hunt.1
  · unfold assign_vehicle_id
    cases h : (assignScan s center f).assigned with
    | some vid =>
      simp only [h]
      exact hunt.2
    | none =>
      simp only [h]
      exact hunt.2

/-- **Claim C3**, counterexample to the original statement. State with two
active tracks: track 1 last at `(0, 0)`, track 2 last at `(30, 0)`, both
last seen at frame 5. A detection at `(30, 0)` in frame 10 binds to track 2
(distance 0), yet track 1's last-seen index is also refreshed to 10,
because the scan refreshed it when track 1 was the running nearest
candidate (distance 30, inside the gate). -/
theorem assign_refresh_scope_cex :
    (assign_vehicle_id c3State (30, 0) 10).1 = 2 ∧
    dfind 1 c3State.track_last_seen = some 5 ∧
    dfind 1 ((assign_vehicle_id c3State (30, 0) 10).2.track_last_seen) = some 10 := by
  decide

/-- Witness for `assign_refresh_scope_spec`: a detection at `(200, 0)` is
outside the gate of both tracks of `c3State`, so a fresh id 3 is allocated
and recorded at frame 10 while track 1 is untouched. -/
theorem assign_refresh_scope_witness :
    (dfind (assign_vehicle_id c3State (200, 0) 10).1
      ((assign_vehicle_id c3State (200, 0) 10).2.track_last_seen) = some 10 ∧
     dfind 1 ((assign_vehicle_id c3State (200, 0) 10).2.track_last_seen) =
       dfind 1 c3State.track_last_seen ∧
     dfind 1 ((assign_vehicle_id c3State (200, 0) 10).2.inactive_tracks) =
       dfind 1 c3State.inactive_tracks ∧
     (assign_vehicle_id c3State (200, 0) 10).2.vehicle_tracks = c3State.vehicle_tracks ∧
     (assign_vehicle_id c3State (200, 0) 10).2.vehicle_speeds = c3State.vehicle_speeds) :=
  assign_refresh_scope_spec c3State (200, 0) 10 1
    (by decide) (by decide) (by decide)

/-!
Claim C2: dormant revival and fresh allocation.
-/

theorem activeScanStep_id {center : ℤ × ℤ} {f : Nat} (acc : ScanAcc)
    (e : Nat × List Sample)
    (hw : ∀ lastS ∈ e.2.getLast?, 2500 ≤ distSq center lastS.position) :
    activeScanStep center f acc e = acc := by
  unfold activeScanStep
  cases hl : e.2.getLast? with
  | none => rfl
  | some lastS =>
    simp only []
    rw [if_neg]
    intro hcond
    exact absurd hcond.1 (not_lt.mpr (hw lastS (by rw [hl]; rfl)))

theorem inactiveScanStep_id {center : ℤ × ℤ} {f : Nat} (acc : ScanAcc)
    (e : Nat × (ℤ × ℤ)) (hw : 2500 ≤ distSq center e.2) :
    inactiveScanStep center f acc e = acc := by
  unfold inactiveScanStep
  simp only []
  rw [if_neg]
  intro hcond
  exact absurd hcond.1 (not_lt.mpr hw)

theorem inactiveScanStep_isSome {center : ℤ × ℤ} {f : Nat} (acc : ScanAcc)
    (e : Nat × (ℤ × ℤ)) (h : (acc.assigned).isSome) :
    ((inactiveScanStep center f acc e).assigned).isSome := by
  unfold inactiveScanStep
  simp only []
  split
  · rfl
  · exact h

theorem inactiveFold_isSome {center : ℤ × ℤ} {f : Nat}
    (l : List (Nat × (ℤ × ℤ))) (acc : ScanAcc) (h : (acc.assigned).isSome) :
    ((l.foldl (inactiveScanStep center f) acc).assigned).isSome :=
  foldl_inv_mem (inactiveScanStep center f) l acc
    (P := fun acc => (acc.assigned).isSome = true)
    (fun acc e _ hp => inactiveScanStep_isSome acc e hp) h

theorem inactiveFold_some {center : ℤ × ℤ} {f : Nat} :
    ∀ (l : List (Nat × (ℤ × ℤ))) (acc : ScanAcc),
      (acc.assigned = none → acc.minSq = none) →
      (∃ e ∈ l, distSq center e.2 < 2500) →
      ((l.foldl (inactiveScanStep center f) acc).assigned).isSome := by
  intro l
  induction l with
  | nil =>
    intro acc _ h
    simp at h
  | cons e es ih =>
    intro acc hmin hex
    simp only [List.foldl_cons]
    cases hacc : acc.assigned with
    | some a =>
      exact inactiveFold_isSome es _ (inactiveScanStep_isSome acc e (by rw [hacc]; rfl))
    | none =>
      have hm := hmin hacc
      by_cases hd : distSq center e.2 < 2500
      · have hwin : ((inactiveScanStep center f acc e).assigned).isSome := by
          unfold inactiveScanStep
          simp only []
          rw [if_pos ⟨hd, by rw [hm]; exact trivial⟩]
          rfl
        exact inactiveFold_isSome es _ hwin
      · have hstep : inactiveScanStep center f acc e = acc :=
          inactiveScanStep_id acc e (not_lt.mp hd)
        rw [hstep]
        apply ih acc hmin
        rcases hex with ⟨e1, he1, hd1⟩
        rcases List.mem_cons.mp he1 with h1 | h2
        · exact absurd hd1 (h1 ▸ hd)
        · exact ⟨e1, h2, hd1⟩

/-- **Claim C2** (corrected). When no active track's last recorded position
is within the distance gate of the detection, `assign_vehicle_id` behaves
as follows. If some dormant centroid is within the gate, it returns a
dormant track's identity whose stored centroid is within the gate, deletes
that entry from the dormant set and stamps the track's last-seen index with
the current frame — but, contrary to the original claim, the revived track
does **not** resume with fresh (empty) position history: the call leaves
`vehicle_tracks` entirely unchanged, so whatever history the track map
still holds for that identity (demotion never cleared it) is resumed.
If no dormant centroid is within the gate either, the fresh identity
`next_vehicle_id` is returned (and the counter incremented, so identities
are never reused within a run). -/
theorem dormant_revival_spec (s : DetectorState) (center : ℤ × ℤ) (f : Nat)
    (hnd : (dkeys s.inactive_tracks).Nodup)
    (hact : ∀ e ∈ s.vehicle_tracks,
      ∀ lastS ∈ e.2.getLast?, 2500 ≤ distSq center lastS.position) :
    ((∃ e ∈ s.inactive_tracks, distSq center e.2 < 2500) →
      ∃ c, dfind (assign_vehicle_id s center f).1 s.inactive_tracks = some c ∧
        distSq center c < 2500 ∧
        dfind (assign_vehicle_id s center f).1
          ((assign_vehicle_id s center f).2.inactive_tracks) = none ∧
        dfind (assign_vehicle_id s center f).1
          ((assign_vehicle_id s center f).2.track_last_seen) = some f ∧
        (assign_vehicle_id s center f).2.vehicle_tracks = s.vehicle_tracks) ∧
    ((∀ e ∈ s.inactive_tracks, 2500 ≤ distSq center e.2) →
      (assign_vehicle_id s center f).1 = s.next_vehicle_id ∧
      (assign_vehicle_id s center f).2.next_vehicle_id = s.next_vehicle_id + 1 ∧
      dfind s.next_vehicle_id
        ((assign_vehicle_id s center f).2.track_last_seen) = some f ∧
      (assign_vehicle_id s center f).2.vehicle_tracks = s.vehicle_tracks ∧
      (assign_vehicle_id s center f).2.inactive_tracks = s.inactive_tracks) := by
  have hacc1 : s.vehicle_tracks.foldl (activeScanStep center f) (initAcc s) = initAcc s :=
    foldl_id_of_mem _ _ _ (fun acc e he => activeScanStep_id acc e (hact e he))
  have hscan : assignScan s center f =
      s.inactive_tracks.foldl (inactiveScanStep center f) (initAcc s) := by
    unfold assignScan
    simp only [hacc1]
    exact if_pos rfl
  constructor
  · rintro ⟨e0, he0, hd0⟩
    have hsome : ((assignScan s center f).assigned).isSome := by
      rw [hscan]
      exact inactiveFold_some s.inactive_tracks (initAcc s) (fun _ => rfl) ⟨e0, he0, hd0⟩
    have hJ := foldl_inv_mem (inactiveScanStep center f) s.inactive_tracks (initAcc s)
      (P := fun acc =>
        (dkeys acc.inactive_tracks).Nodup ∧
        (∀ a, acc.assigned = some a →
          ∃ c, dfind a s.inactive_tracks = some c ∧ distSq center c < 2500 ∧
            dfind a acc.inactive_tracks = none ∧
            dfind a acc.track_last_seen = some f))
      (by
        intro acc e he hp
        unfold inactiveScanStep
        simp only []
        split
        · rename_i hcond
          refine ⟨dkeys_nodup_ddelete hp.1, ?_⟩
          intro a ha
          simp only at ha
          injection ha with ha
          subst ha
          exact ⟨e.2, dfind_of_mem_nodup (by rw [Prod.mk.eta]; exact he) hnd,
            hcond.1, dfind_ddelete_self hp.1, dfind_dinsert_self _ _ _⟩
        · exact hp)
      ⟨hnd, fun a ha => by simp [initAcc] at ha⟩
    rw [← hscan] at hJ
    obtain ⟨a, ha⟩ := Option.isSome_iff_exists.mp hsome
    obtain ⟨c, hc1, hc2, hc3, hc4⟩ := hJ.2 a ha
    unfold assign_vehicle_id
    rw [ha]
    exact ⟨c, hc1, hc2, hc3, hc4, rfl⟩
  · intro hout
    have hfold : s.inactive_tracks.foldl (inactiveScanStep center f) (initAcc s) =
        initAcc s :=
      foldl_id_of_mem _ _ _ (fun acc e he => inactiveScanStep_id acc e (hout e he))
    have hnone : (assignScan s center f).assigned = none := by
      rw [hscan, hfold]
      rfl
    unfold assign_vehicle_id
    rw [hnone]
    refine ⟨rfl, rfl, ?_, rfl, ?_⟩
    · exact dfind_dinsert_self _ _ _
    · show (assignScan s center f).inactive_tracks = s.inactive_tracks
      rw [hscan, hfold]
      rfl

set_option maxRecDepth 40000 in
unseal Rat.add Rat.mul Rat.inv Rat.sub in
/-- **Claim C2**, counterexample to the original statement. In the replayed
run, at frame 35 track 1 is dormant with stored centroid `(0, 0)` while its
(never-cleared) active history ends at `(0, 90)`, outside the gate of the
new detection at `(0, 0)`. The call revives identity 1 from the dormant set
— but the revived track's position history is *not* fresh/empty: the four
previously recorded samples are still attached to identity 1 after the
call. -/
theorem dormant_revival_cex :
    dfind 1 c2F35Pre.inactive_tracks = some (0, 0) ∧
    (∀ e ∈ c2F35Pre.vehicle_tracks,
      ∀ lastS ∈ e.2.getLast?, 2500 ≤ distSq (0, 0) lastS.position) ∧
    (assign_vehicle_id c2F35Pre (0, 0) 35).1 = 1 ∧
    dfind 1 ((assign_vehicle_id c2F35Pre (0, 0) 35).2.inactive_tracks) = none ∧
    ((dfind 1 ((assign_vehicle_id c2F35Pre (0, 0) 35).2.vehicle_tracks)).getD
      []).length = 4 := by
  decide

set_option maxRecDepth 40000 in
unseal Rat.add Rat.mul Rat.inv Rat.sub in
/-- Witness for `dormant_revival_spec` at the concrete reachable state
`c2F35Pre`: the revival branch fires for the dormant track 1. -/
theorem dormant_revival_witness :
    ∃ c, dfind (assign_vehicle_id c2F35Pre (0, 0) 35).1 c2F35Pre.inactive_tracks = some c ∧
      distSq (0, 0) c < 2500 ∧
      dfind (assign_vehicle_id c2F35Pre (0, 0) 35).1
        ((assign_vehicle_id c2F35Pre (0, 0) 35).2.inactive_tracks) = none ∧
      dfind (assign_vehicle_id c2F35Pre (0, 0) 35).1
        ((assign_vehicle_id c2F35Pre (0, 0) 35).2.track_last_seen) = some 35 ∧
      (assign_vehicle_id c2F35Pre (0, 0) 35).2.vehicle_tracks =
        c2F35Pre.vehicle_tracks :=
  (dormant_revival_spec c2F35Pre (0, 0) 35 (by decide) (by decide)).1 (by decide)

/-!
Claims C4 and C5: the speed estimator.
-/

theorem intervalSpeed_pos {sqrtFn : ℚ → ℚ} {ppm : ℚ} {s1 s2 : Sample} {x : ℚ}
    (h : intervalSpeed sqrtFn ppm s1 s2 = some x) : 0 < x := by
  unfold intervalSpeed at h
  simp only [] at h
  split at h
  · split at h
    · rename_i hcond
      injection h with h
      rw [← h]
      exact hcond.1
    · exact absurd h (by simp)
  · exact absurd h (by simp)

theorem instantSpeeds_pos (sqrtFn : ℚ → ℚ) (ppm : ℚ) (track : List Sample) :
    ∀ x ∈ instantSpeeds sqrtFn ppm track, 0 < x := by
  intro x hx
  unfold instantSpeeds at hx
  rcases List.mem_filterMap.mp hx with ⟨i, _, hmatch⟩
  cases h1 : track.get? (track.length - i - 1) with
  | none => rw [h1] at hmatch; exact absurd hmatch (by simp)
  | some s1 =>
    cases h2 : track.get? (track.length - i) with
    | none => rw [h1, h2] at hmatch; exact absurd hmatch (by simp)
    | some s2 =>
      rw [h1, h2] at hmatch
      exact intervalSpeed_pos hmatch

theorem instantSpeeds_mean_pos {sqrtFn : ℚ → ℚ} {ppm : ℚ} {track : List Sample}
    (hne : instantSpeeds sqrtFn ppm track ≠ []) :
    0 < (instantSpeeds sqrtFn ppm track).sum /
      ((instantSpeeds sqrtFn ppm track).length : ℚ) := by
  apply div_pos
  · exact List.sum_pos _ (instantSpeeds_pos sqrtFn ppm track) hne
  · exact_mod_cast List.length_pos.mpr hne

/-- **Claim C4** (corrected). `calculate_speed` returns 0 and leaves the
smoothed-speed map unchanged whenever the history after appending the new
sample has fewer than 3 samples. From the third sample on, the returned
speed is positive whenever at least one of the considered consecutive
sample pairs *survives the filter* (elapsed time positive, pixel distance
strictly greater than 1, corrected speed strictly between 0 and 200) and
the prior smoothed value, if any, is nonnegative. Contrary to the original
claim, positive displacement with positive elapsed time is *not*
sufficient for a non-zero speed: displacements of at most one pixel, and
corrected speeds of 200 or more, are discarded, and if every pair is
discarded the function returns the prior value, 0 for a new track. -/
theorem speed_threshold_spec (sqrtFn : ℚ → ℚ) (ppm : ℚ) (s : DetectorState)
    (vid : Nat) (pos : ℤ × ℤ) (frame : Nat) (fps : ℚ) (track : List Sample)
    (htrack : track = appendTrunc ((dfind vid s.vehicle_tracks).getD [])
      { position := pos, frame := frame, timestamp := (frame : ℚ) / fps }) :
    (track.length < 3 →
      (calculate_speed sqrtFn ppm s vid pos frame fps).1 = 0 ∧
      (calculate_speed sqrtFn ppm s vid pos frame fps).2.vehicle_speeds =
        s.vehicle_speeds) ∧
    (3 ≤ track.length → instantSpeeds sqrtFn ppm track ≠ [] →
      0 ≤ (dfind vid s.vehicle_speeds).getD 0 →
      0 < (calculate_speed sqrtFn ppm s vid pos frame fps).1) := by
  subst htrack
  constructor
  · intro hlen
    unfold calculate_speed
    simp only []
    rw [if_pos hlen]
    exact ⟨rfl, rfl⟩
  · intro hlen hne hprev
    unfold calculate_speed
    simp only []
    rw [if_neg (not_lt.mpr hlen)]
    rw [if_neg (by simpa [List.isEmpty_iff] using hne)]
    have hmean := instantSpeeds_mean_pos hne
    cases hp : dfind vid s.vehicle_speeds with
    | none =>
      simp only [hp]
      exact hmean
    | some prev =>
      simp only [hp]
      have hprev2 : 0 ≤ prev := by
        rw [hp] at hprev
        exact hprev
      have h7 : 0 ≤ (1 - 3 / 10 : ℚ) * prev := by
        apply mul_nonneg _ hprev2
        norm_num
      have h3 := mul_pos (show (0 : ℚ) < 3 / 10 by norm_num) hmean
      linarith

set_option maxRecDepth 40000 in
unseal Rat.add Rat.mul Rat.inv Rat.sub in
/-- **Claim C4**, counterexample to the original statement. Three samples
at `(0,0)`, `(1,0)`, `(2,0)` in frames 1–3 (fps 1): every consecutive pair
has strictly positive displacement (one pixel) and strictly positive
elapsed time, the history holds 3 samples, yet the reported speed at the
third sample is 0 — the `distance_pixels > 1` filter discards one-pixel
steps (`np.sqrt 1 = 1`, computed exactly by `ratSqrt`). -/
theorem speed_threshold_cex :
    (calculate_speed ratSqrt 8 c4S2 1 (2, 0) 3 1).1 = 0 ∧
    ((dfind 1 (calculate_speed ratSqrt 8 c4S2 1 (2, 0) 3 1).2.vehicle_tracks).getD
      []).length = 3 ∧
    (0 : ℤ) < distSq (0, 0) (1, 0) ∧ (0 : ℤ) < distSq (1, 0) (2, 0) := by
  decide

set_option maxRecDepth 40000 in
unseal Rat.add Rat.mul Rat.inv Rat.sub in
/-- Witness for `speed_threshold_spec`: with two prior samples two pixels
apart and a third two pixels further, some pair survives the filter and
the reported speed is positive. -/
theorem speed_threshold_witness :
    instantSpeeds ratSqrt 8
      [{ position := (0, 0), frame := 1, timestamp := 1 },
       { position := (2, 0), frame := 2, timestamp := 2 },
       { position := (4, 0), frame := 3, timestamp := 3 }] ≠ [] ∧
    0 < (calculate_speed ratSqrt 8 c4WState 2 (4, 0) 3 1).1 :=
  ⟨by decide,
   (speed_threshold_spec ratSqrt 8 c4WState 2 (4, 0) 3 1
      [{ position := (0, 0), frame := 1, timestamp := 1 },
       { position := (2, 0), frame := 2, timestamp := 2 },
       { position := (4, 0), frame := 3, timestamp := 3 }]
      (by decide)).2 (by decide) (by decide) (by decide)⟩

/-- **Claim C5** (confirmed). Once the history holds at least 3 samples:
when at least one instantaneous speed survives filtering, and the track has
no prior smoothed speed, `calculate_speed` returns the raw average `R` of
the surviving speeds and stores it; with a prior smoothed speed `S`, it
returns and stores `0.3·R + 0.7·S`. When no instantaneous value survives,
it returns the previous smoothed value (0 if none) and leaves the
smoothed-speed map unchanged. -/
theorem speed_smoothing_spec (sqrtFn : ℚ → ℚ) (ppm : ℚ) (s : DetectorState)
    (vid : Nat) (pos : ℤ × ℤ) (frame : Nat) (fps : ℚ) (track : List Sample)
    (htrack : track = appendTrunc ((dfind vid s.vehicle_tracks).getD [])
      { position := pos, frame := frame, timestamp := (frame : ℚ) / fps })
    (hlen : 3 ≤ track.length) :
    (instantSpeeds sqrtFn ppm track ≠ [] → dfind vid s.vehicle_speeds = none →
      (calculate_speed sqrtFn ppm s vid pos frame fps).1 =
        (instantSpeeds sqrtFn ppm track).sum /
          ((instantSpeeds sqrtFn ppm track).length : ℚ) ∧
      dfind vid ((calculate_speed sqrtFn ppm s vid pos frame fps).2.vehicle_speeds) =
        some ((instantSpeeds sqrtFn ppm track).sum /
          ((instantSpeeds sqrtFn ppm track).length : ℚ))) ∧
    (∀ S, instantSpeeds sqrtFn ppm track ≠ [] → dfind vid s.vehicle_speeds = some S →
      (calculate_speed sqrtFn ppm s vid pos frame fps).1 =
        (3 / 10) * ((instantSpeeds sqrtFn ppm track).sum /
          ((instantSpeeds sqrtFn ppm track).length : ℚ)) + (7 / 10) * S ∧
      dfind vid ((calculate_speed sqrtFn ppm s vid pos frame fps).2.vehicle_speeds) =
        some ((3 / 10) * ((instantSpeeds sqrtFn ppm track).sum /
          ((instantSpeeds sqrtFn ppm track).length : ℚ)) + (7 / 10) * S)) ∧
    (instantSpeeds sqrtFn ppm track = [] →
      (calculate_speed sqrtFn ppm s vid pos frame fps).1 =
        (dfind vid s.vehicle_speeds).getD 0 ∧
      (calculate_speed sqrtFn ppm s vid pos frame fps).2.vehicle_speeds =
        s.vehicle_speeds) := by
  subst htrack
  refine ⟨?_, ?_, ?_⟩
  · intro hne hprior
    unfold calculate_speed
    simp only []
    rw [if_neg (not_lt.mpr hlen)]
    rw [if_neg (by simpa [List.isEmpty_iff] using hne)]
    simp only [hprior]
    exact ⟨trivial, dfind_dinsert_self _ _ _⟩
  · intro S hne hprior
    unfold calculate_speed
    simp only []
    rw [if_neg (not_lt.mpr hlen)]
    rw [if_neg (by simpa [List.isEmpty_iff] using hne)]
    simp only [hprior]
    have harith : (1 - 3 / 10 : ℚ) * S +
        (3 / 10) * ((instantSpeeds sqrtFn ppm
          (appendTrunc ((dfind vid s.vehicle_tracks).getD [])
            { position := pos, frame := frame,
              timestamp := (frame : ℚ) / fps })).sum /
          ((instantSpeeds sqrtFn ppm
            (appendTrunc ((dfind vid s.vehicle_tracks).getD [])
              { position := pos, frame := frame,
                timestamp := (frame : ℚ) / fps })).length : ℚ)) =
        (3 / 10) * ((instantSpeeds sqrtFn ppm
          (appendTrunc ((dfind vid s.vehicle_tracks).getD [])
            { position := pos, frame := frame,
              timestamp := (frame : ℚ) / fps })).sum /
          ((instantSpeeds sqrtFn ppm
            (appendTrunc ((dfind vid s.vehicle_tracks).getD [])
              { position := pos, frame := frame,
                timestamp := (frame : ℚ) / fps })).length : ℚ)) + (7 / 10) * S := by
      ring
    constructor
    · exact harith
    · rw [← harith]
      exact dfind_dinsert_self _ _ _
  · intro hemp
    unfold calculate_speed
    simp only []
    rw [if_neg (not_lt.mpr hlen)]
    rw [if_pos (by simpa [List.isEmpty_iff] using hemp)]
    exact ⟨rfl, rfl⟩

set_option maxRecDepth 40000 in
unseal Rat.add Rat.mul Rat.inv Rat.sub in
/-- Witness for `speed_smoothing_spec`: prior smoothed speed 2, one
surviving raw estimate 1.08 km/h, reported `0.3·1.08 + 0.7·2 = 431/250`. -/
theorem speed_smoothing_witness :
    dfind 1 c5State.vehicle_speeds = some 2 ∧
    (calculate_speed ratSqrt 8 c5State 1 (4, 0) 3 1).1 = 431 / 250 ∧
    dfind 1 ((calculate_speed ratSqrt 8 c5State 1 (4, 0) 3 1).2.vehicle_speeds) =
      some (431 / 250) := by
  have h := (speed_smoothing_spec ratSqrt 8 c5State 1 (4, 0) 3 1
    [{ position := (0, 0), frame := 1, timestamp := 1 },
     { position := (2, 0), frame := 2, timestamp := 2 },
     { position := (4, 0), frame := 3, timestamp := 3 }]
    (by decide) (by decide)).2.1 2 (by decide) (by decide)
  exact ⟨by decide, h.1.trans (by decide), h.2.trans (by decide)⟩

/-!
Claim C7: stable identity along a slowly moving single-vehicle sequence.
-/

theorem distSq_comm (p q : ℤ × ℤ) : distSq p q = distSq q p := by
  unfold distSq
  ring

theorem getLast?_appendTrunc (t : List Sample) (s : Sample) :
    (appendTrunc t s).getLast? = some s := by
  unfold appendTrunc
  simp only []
  split
  · rename_i hlen
    rw [List.drop_append_of_le_length (by simp at hlen ⊢; try omega)]
    exact List.getLast?_concat _
  · exact List.getLast?_concat _

theorem assign_single_active (S : DetectorState) (center : ℤ × ℤ) (f : Nat)
    (h : List Sample) (lastS : Sample)
    (htr : S.vehicle_tracks = [(1, h)])
    (hlast : h.getLast? = some lastS)
    (hgate : distSq center lastS.position < 2500) :
    assign_vehicle_id S center f =
      (1, { S with track_last_seen := dinsert 1 f S.track_last_seen }) := by
  have hacc1 : S.vehicle_tracks.foldl (activeScanStep center f) (initAcc S) =
      { minSq := some (distSq center lastS.position), assigned := some 1,
        track_last_seen := dinsert 1 f S.track_last_seen,
        inactive_tracks := S.inactive_tracks } := by
    rw [htr]
    simp only [List.foldl_cons, List.foldl_nil]
    unfold activeScanStep
    simp only [hlast]
    rw [if_pos ⟨hgate, trivial⟩]
    rfl
  have hscan : assignScan S center f =
      { minSq := some (distSq center lastS.position), assigned := some 1,
        track_last_seen := dinsert 1 f S.track_last_seen,
        inactive_tracks := S.inactive_tracks } := by
    unfold assignScan
    simp only [hacc1]
    rw [if_neg (by simp)]
  unfold assign_vehicle_id
  rw [hscan]

theorem calculate_speed_state (sqrtFn : ℚ → ℚ) (ppm : ℚ) (S : DetectorState)
    (vid : Nat) (pos : ℤ × ℤ) (frame : Nat) (fps : ℚ) :
    (calculate_speed sqrtFn ppm S vid pos frame fps).2.vehicle_tracks =
      dinsert vid (appendTrunc ((dfind vid S.vehicle_tracks).getD [])
        { position := pos, frame := frame, timestamp := (frame : ℚ) / fps })
        S.vehicle_tracks ∧
    (calculate_speed sqrtFn ppm S vid pos frame fps).2.track_last_seen =
      S.track_last_seen ∧
    (calculate_speed sqrtFn ppm S vid pos frame fps).2.inactive_tracks =
      S.inactive_tracks ∧
    (calculate_speed sqrtFn ppm S vid pos frame fps).2.next_vehicle_id =
      S.next_vehicle_id := by
  unfold calculate_speed
  simp only []
  repeat' split
  all_goals exact ⟨rfl, rfl, rfl, rfl⟩

theorem aging_single_fresh (S : DetectorState) (f ls : Nat)
    (hlastseen : S.track_last_seen = [(1, ls)])
    (hnot : ¬ ((30 : ℤ) < (f : ℤ) - (ls : ℤ))) :
    updateInactiveTracks S f = S := by
  unfold updateInactiveTracks
  rw [hlastseen]
  simp only [List.foldl_cons, List.foldl_nil]
  apply agingStep_not_old _ hnot
  rw [hlastseen]
  simp [dfind]

theorem runSolo_invariant (sqrtFn : ℚ → ℚ) (ppm fps : ℚ) (cs : ℕ → ℤ × ℤ) :
    ∀ n, (∀ j, j < n → distSq (cs j) (cs (j + 1)) < 2500) →
      ∃ h : List Sample, ∃ lastS : Sample,
        (runSoloTrack sqrtFn ppm fps cs (n + 1)).vehicle_tracks = [(1, h)] ∧
        h.getLast? = some lastS ∧ lastS.position = cs n ∧
        (runSoloTrack sqrtFn ppm fps cs (n + 1)).track_last_seen = [(1, n + 1)] ∧
        (runSoloTrack sqrtFn ppm fps cs (n + 1)).inactive_tracks = [] ∧
        (runSoloTrack sqrtFn ppm fps cs (n + 1)).next_vehicle_id = 2 := by
  intro n
  induction n with
  | zero =>
    intro _
    exact ⟨[{ position := cs 0, frame := 1, timestamp := (1 : ℚ) / fps }],
      { position := cs 0, frame := 1, timestamp := (1 : ℚ) / fps },
      rfl, rfl, rfl, rfl, rfl, rfl⟩
  | succ k ih =>
    intro hgate
    obtain ⟨h, lastS, htr, hlast, hpos, hseen, hinact, hnext⟩ :=
      ih (fun j hj => hgate j (Nat.lt_succ_of_lt hj))
    set S := runSoloTrack sqrtFn ppm fps cs (k + 1) with hS
    have hrun : runSoloTrack sqrtFn ppm fps cs (k + 2) =
        (trackerFrame sqrtFn ppm fps S (k + 2) (cs (k + 1))).2 := rfl
    have haging : updateInactiveTracks S (k + 2) = S := by
      apply aging_single_fresh S (k + 2) (k + 1) hseen
      push_cast
      omega
    have hgatek : distSq (cs (k + 1)) lastS.position < 2500 := by
      rw [hpos, distSq_comm]
      exact hgate k (Nat.lt_succ_self k)
    have hassign := assign_single_active S (cs (k + 1)) (k + 2) h lastS htr hlast hgatek
    have hseen2 :
        ({ S with track_last_seen := dinsert 1 (k + 2) S.track_last_seen } :
          DetectorState).track_last_seen = [(1, k + 2)] := by
      show dinsert 1 (k + 2) S.track_last_seen = [(1, k + 2)]
      rw [hseen]
      simp [dinsert]
    have hstep : trackerFrame sqrtFn ppm fps S (k + 2) (cs (k + 1)) =
        (1, (calculate_speed sqrtFn ppm
          { S with track_last_seen := dinsert 1 (k + 2) S.track_last_seen }
          1 (cs (k + 1)) (k + 2) fps).2) := by
      unfold trackerFrame
      simp only [haging, hassign]
    have hcs := calculate_speed_state sqrtFn ppm
      { S with track_last_seen := dinsert 1 (k + 2) S.track_last_seen }
      1 (cs (k + 1)) (k + 2) fps
    have hdf :
        (dfind 1 ({ S with track_last_seen := dinsert 1 (k + 2) S.track_last_seen } :
          DetectorState).vehicle_tracks).getD [] = h := by
      show (dfind 1 S.vehicle_tracks).getD [] = h
      rw [htr]
      simp [dfind]
    refine ⟨appendTrunc h ⟨cs (k + 1), k + 2, ((k + 2 : Nat) : ℚ) / fps, none, none, none⟩,
      ⟨cs (k + 1), k + 2, ((k + 2 : Nat) : ℚ) / fps, none, none, none⟩,
      ?_, getLast?_appendTrunc _ _, rfl, ?_, ?_, ?_⟩
    · rw [hrun, hstep, hcs.1, hdf]
      show dinsert 1 _ S.vehicle_tracks = _
      rw [htr]
      simp [dinsert]
    · rw [hrun, hstep, hcs.2.1]
      exact hseen2
    · rw [hrun, hstep, hcs.2.2.1]
      exact hinact
    · rw [hrun, hstep, hcs.2.2.2]
      exact hnext

/-- **Claim C7** (confirmed). Starting from the initial state, for every
sequence of frames each containing a single detection whose centroid moves
less than the distance gate between consecutive frames, with each frame's
position recorded on the assigned track, `assign_vehicle_id` returns on
every frame (through frame `n + 1`) the identity 1 that was allocated at
the first frame. -/
theorem stable_identity_spec (sqrtFn : ℚ → ℚ) (ppm fps : ℚ) (cs : ℕ → ℤ × ℤ)
    (n : ℕ) (hgate : ∀ j, j < n → distSq (cs j) (cs (j + 1)) < 2500) :
    ∀ i, i ≤ n →
      (trackerFrame sqrtFn ppm fps (runSoloTrack sqrtFn ppm fps cs i) (i + 1) (cs i)).1
        = 1 := by
  intro i hi
  cases i with
  | zero => rfl
  | succ k =>
    obtain ⟨h, lastS, htr, hlast, hpos, hseen, hinact, hnext⟩ :=
      runSolo_invariant sqrtFn ppm fps cs k
        (fun j hj => hgate j (lt_of_lt_of_le hj (Nat.le_of_succ_le hi)))
    set S := runSoloTrack sqrtFn ppm fps cs (k + 1) with hS
    have haging : updateInactiveTracks S (k + 2) = S := by
      apply aging_single_fresh S (k + 2) (k + 1) hseen
      push_cast
      omega
    have hgatek : distSq (cs (k + 1)) lastS.position < 2500 := by
      rw [hpos, distSq_comm]
      exact hgate k (Nat.lt_of_succ_le hi)
    have hassign := assign_single_active S (cs (k + 1)) (k + 2) h lastS htr hlast hgatek
    unfold trackerFrame
    simp only [haging, hassign]

/-- Witness for `stable_identity_spec`: a vehicle moving one pixel per
frame keeps identity 1 at frame 4 of the replayed run. -/
theorem stable_identity_witness :
    (∀ j, j < 3 →
      distSq ((fun i => ((i : ℤ), 0)) j) ((fun i => ((i : ℤ), 0)) (j + 1)) < 2500) ∧
    (trackerFrame ratSqrt 8 1 (runSoloTrack ratSqrt 8 1 (fun i => ((i : ℤ), 0)) 3) 4
      ((3 : ℤ), 0)).1 = 1 :=
  ⟨by intro j hj; unfold distSq; push_cast; ring_nf; norm_num,
   stable_identity_spec ratSqrt 8 1 (fun i => ((i : ℤ), 0)) 3
     (by intro j hj; unfold distSq; push_cast; ring_nf; norm_num) 3 (by decide)⟩

/-!
Claim C6: record emission is gated by speed only; the zone gates only the
drawn overlay.
-/

/-- **Claim C6** (confirmed). For every detection processed by the
per-detection body of `process_video`: exactly one `DetectionRecord` is
appended iff the computed speed is strictly positive; the emitted record,
the updated state, and the computed speed are all independent of the
speed-detection zone (hence so is the whole frame's record stream); and the
zone test `zone_y1 ≤ center_y ≤ zone_y2` gates exactly the drawn speed
overlay. -/
theorem record_emission_spec (sqrtFn : ℚ → ℚ) (ppm : ℚ)
    (engine : Img → Except String (List OcrResult)) (enhanceOf threshOf : Img → Img)
    (frameImg : Img) (limit : ℚ) (z z2 : ℤ × ℤ × ℤ × ℤ)
    (s : DetectorState) (d : Detection) (ds : List Detection)
    (frame_count : Nat) (fps : ℚ) :
    ((processDetection sqrtFn ppm engine enhanceOf threshOf frameImg limit z
        s d frame_count fps).record.isSome = true ↔
      0 < (processDetection sqrtFn ppm engine enhanceOf threshOf frameImg limit z
        s d frame_count fps).speed) ∧
    ((processDetection sqrtFn ppm engine enhanceOf threshOf frameImg limit z2
        s d frame_count fps).record =
      (processDetection sqrtFn ppm engine enhanceOf threshOf frameImg limit z
        s d frame_count fps).record ∧
     (processDetection sqrtFn ppm engine enhanceOf threshOf frameImg limit z2
        s d frame_count fps).state =
      (processDetection sqrtFn ppm engine enhanceOf threshOf frameImg limit z
        s d frame_count fps).state ∧
     (processDetection sqrtFn ppm engine enhanceOf threshOf frameImg limit z2
        s d frame_count fps).speed =
      (processDetection sqrtFn ppm engine enhanceOf threshOf frameImg limit z
        s d frame_count fps).speed) ∧
    ((processDetection sqrtFn ppm engine enhanceOf threshOf frameImg limit z
        s d frame_count fps).overlayShown = true ↔
      z.2.1 ≤ d.center.2 ∧ d.center.2 ≤ z.2.2.2) ∧
    (processFrame sqrtFn ppm engine enhanceOf threshOf frameImg limit z2
        s ds frame_count fps =
      processFrame sqrtFn ppm engine enhanceOf threshOf frameImg limit z
        s ds frame_count fps) := by
  refine ⟨?_, ⟨rfl, rfl, rfl⟩, ?_, rfl⟩
  · unfold processDetection
    simp only []
    split
    · simp [*]
    · simp [*]
  · unfold processDetection
    simp only []
    exact decide_eq_true_iff

/-!
Claim C8: the plate candidate filter and best-candidate selection.
-/

theorem mem_insertByConf {x y : String × ℚ × Quad} :
    ∀ {l : List (String × ℚ × Quad)}, y ∈ insertByConf x l ↔ y = x ∨ y ∈ l := by
  intro l
  induction l with
  | nil => simp [insertByConf]
  | cons z zs ih =>
    unfold insertByConf
    split
    · simp only [List.mem_cons]
    · simp only [List.mem_cons, ih]
      tauto

theorem mem_sortByConfDesc {y : String × ℚ × Quad} :
    ∀ {l : List (String × ℚ × Quad)}, y ∈ sortByConfDesc l ↔ y ∈ l := by
  intro l
  induction l with
  | nil => simp [sortByConfDesc]
  | cons z zs ih =>
    unfold sortByConfDesc
    rw [mem_insertByConf]
    simp only [List.mem_cons, ih]

theorem insertByConf_pairwise {x : String × ℚ × Quad}
    {l : List (String × ℚ × Quad)}
    (h : l.Pairwise (fun a b => b.2.1 ≤ a.2.1)) :
    (insertByConf x l).Pairwise (fun a b => b.2.1 ≤ a.2.1) := by
  induction l with
  | nil => simp [insertByConf]
  | cons z zs ih =>
    rw [List.pairwise_cons] at h
    unfold insertByConf
    split
    · rename_i hle
      rw [List.pairwise_cons]
      constructor
      · intro y hy
        rcases List.mem_cons.mp hy with h1 | h2
        · rw [h1]; exact hle
        · exact le_trans (h.1 y h2) hle
      · exact List.pairwise_cons.mpr h
    · rename_i hgt
      rw [List.pairwise_cons]
      constructor
      · intro y hy
        rcases mem_insertByConf.mp hy with h1 | h2
        · rw [h1]
          exact le_of_not_le hgt
        · exact h.1 y h2
      · exact ih h.2

theorem sortByConfDesc_pairwise (l : List (String × ℚ × Quad)) :
    (sortByConfDesc l).Pairwise (fun a b => b.2.1 ≤ a.2.1) := by
  induction l with
  | nil => simp [sortByConfDesc]
  | cons z zs ih => exact insertByConf_pairwise ih

theorem sortByConfDesc_head_max {l : List (String × ℚ × Quad)}
    {p : String × ℚ × Quad} {rest : List (String × ℚ × Quad)}
    (h : sortByConfDesc l = p :: rest) :
    ∀ y ∈ l, y.2.1 ≤ p.2.1 := by
  intro y hy
  have hmem : y ∈ p :: rest := by
    rw [← h]
    exact mem_sortByConfDesc.mpr hy
  rcases List.mem_cons.mp hmem with h1 | h2
  · rw [h1]
  · have hp := sortByConfDesc_pairwise l
    rw [h, List.pairwise_cons] at hp
    exact hp.1 y h2

theorem mem_plateCandidates {all : List OcrResult} {p : String × ℚ × Quad}
    (h : p ∈ plateCandidates all) :
    ∃ r ∈ all, (2 / 5 : ℚ) < r.2.2 ∧ p = (cleanText r.2.1, r.2.2, r.1) ∧
      4 ≤ (cleanText r.2.1).length ∧
      (cleanText r.2.1).data.any Char.isDigit = true ∧
      (cleanText r.2.1).data.any Char.isAlpha = true := by
  rcases List.mem_filterMap.mp h with ⟨r, hr, hf⟩
  refine ⟨r, hr, ?_⟩
  by_cases h1 : (2 / 5 : ℚ) < r.2.2
  · rw [if_pos h1] at hf
    by_cases h2 : 4 ≤ (cleanText r.2.1).length ∧
        (cleanText r.2.1).data.any Char.isDigit ∧
        (cleanText r.2.1).data.any Char.isAlpha
    · rw [if_pos h2] at hf
      injection hf with hf
      exact ⟨h1, hf.symm, h2.1, h2.2.1, h2.2.2⟩
    · rw [if_neg h2] at hf
      exact absurd hf (by simp)
  · rw [if_neg h1] at hf
    exact absurd hf (by simp)

theorem plateCandidates_mem_of {all : List OcrResult} {r : OcrResult}
    (hr : r ∈ all) (h1 : (2 / 5 : ℚ) < r.2.2)
    (h2 : 4 ≤ (cleanText r.2.1).length)
    (h3 : (cleanText r.2.1).data.any Char.isDigit = true)
    (h4 : (cleanText r.2.1).data.any Char.isAlpha = true) :
    (cleanText r.2.1, r.2.2, r.1) ∈ plateCandidates all := by
  apply List.mem_filterMap.mpr
  refine ⟨r, hr, ?_⟩
  rw [if_pos h1, if_pos ⟨h2, h3, h4⟩]

/-- **Claim C8** (confirmed). Whenever `detect_license_plate` returns a
plate, both engine invocations succeeded and the plate is the alphanumeric
normalisation of a candidate whose confidence exceeds 0.4, whose
normalisation is at least 4 characters long and contains both a digit and
a letter, and whose confidence is maximal among all such surviving
candidates; in particular no candidate failing the normalisation check is
ever selected, regardless of its reported confidence. -/
theorem plate_filter_spec (engine : Img → Except String (List OcrResult))
    (enhanceOf threshOf : Img → Img) (crop : Img) (t : String) (q : Quad)
    (h : detect_license_plate engine enhanceOf threshOf crop = some (some t, some q)) :
    ∃ r1 r2, engine (enhanceOf crop) = .ok r1 ∧ engine (threshOf crop) = .ok r2 ∧
      ∃ cand ∈ r1 ++ r2, (2 / 5 : ℚ) < cand.2.2 ∧ t = cleanText cand.2.1 ∧
        q = cand.1 ∧ 4 ≤ t.length ∧ t.data.any Char.isDigit = true ∧
        t.data.any Char.isAlpha = true ∧
        ∀ cand2 ∈ r1 ++ r2, (2 / 5 : ℚ) < cand2.2.2 →
          4 ≤ (cleanText cand2.2.1).length →
          (cleanText cand2.2.1).data.any Char.isDigit = true →
          (cleanText cand2.2.1).data.any Char.isAlpha = true →
          cand2.2.2 ≤ cand.2.2 := by
  unfold detect_license_plate at h
  split at h
  · exact absurd h (by simp)
  · cases h1 : engine (enhanceOf crop) with
    | error e => rw [h1] at h; exact absurd h (by simp)
    | ok r1 =>
      rw [h1] at h
      cases h2 : engine (threshOf crop) with
      | error e => rw [h2] at h; exact absurd h (by simp)
      | ok r2 =>
        rw [h2] at h
        dsimp only [] at h
        refine ⟨r1, r2, rfl, rfl, ?_⟩
        cases hsel : selectPlate (r1 ++ r2) with
        | none => rw [hsel] at h; exact absurd h (by simp)
        | some tb =>
          rw [hsel] at h
          obtain ⟨t2, b2⟩ := tb
          simp only [] at h
          injection h with h
          injection h with ha hb
          injection ha with ha
          injection hb with hb
          unfold selectPlate at hsel
          cases hsort : sortByConfDesc (plateCandidates (r1 ++ r2)) with
          | nil => rw [hsort] at hsel; exact absurd hsel (by simp)
          | cons p rest =>
            rw [hsort] at hsel
            simp only [] at hsel
            injection hsel with hsel
            injection hsel with hp1 hp2
            have hpmem : p ∈ plateCandidates (r1 ++ r2) :=
              mem_sortByConfDesc.mp (by rw [hsort]; exact List.mem_cons_self _ _)
            obtain ⟨r, hrmem, hconf, hpeq, hlen, hdig, halph⟩ :=
              mem_plateCandidates hpmem
            refine ⟨r, hrmem, hconf, ?_, ?_, ?_, ?_, ?_, ?_⟩
            · rw [← ha, ← hp1, hpeq]
            · rw [← hb, ← hp2, hpeq]
            · rw [← ha, ← hp1, hpeq]; exact hlen
            · rw [← ha, ← hp1, hpeq]; exact hdig
            · rw [← ha, ← hp1, hpeq]; exact halph
            · intro cand2 hc2 hc2conf hc2len hc2dig hc2alpha
              have hmem2 := plateCandidates_mem_of hc2 hc2conf hc2len hc2dig hc2alpha
              have := sortByConfDesc_head_max hsort _ hmem2
              rw [hpeq] at this
              exact this

unseal Rat.add Rat.mul Rat.inv Rat.sub in
/-- Witness for `plate_filter_spec`: an engine offering a high-confidence
plate-like candidate `"AB-12"`, a letters-only candidate, and a lower
confidence plate-like one; the normalisation `"AB12"` of the best survivor
is selected. -/
theorem plate_filter_witness :
    detect_license_plate c8Engine id id smallImg = some (some "AB12", some []) ∧
    (∃ r1 r2, c8Engine (id smallImg) = .ok r1 ∧ c8Engine (id smallImg) = .ok r2 ∧
      ∃ cand ∈ r1 ++ r2, (2 / 5 : ℚ) < cand.2.2 ∧ "AB12" = cleanText cand.2.1 ∧
        ([] : Quad) = cand.1 ∧ 4 ≤ ("AB12" : String).length ∧
        ("AB12" : String).data.any Char.isDigit = true ∧
        ("AB12" : String).data.any Char.isAlpha = true ∧
        ∀ cand2 ∈ r1 ++ r2, (2 / 5 : ℚ) < cand2.2.2 →
          4 ≤ (cleanText cand2.2.1).length →
          (cleanText cand2.2.1).data.any Char.isDigit = true →
          (cleanText cand2.2.1).data.any Char.isAlpha = true →
          cand2.2.2 ≤ cand.2.2) :=
  ⟨by decide, plate_filter_spec c8Engine id id smallImg "AB12" [] (by decide)⟩

/-!
Claim C9: recognition-engine failure is absorbed inside
`detect_license_plate`.
-/

/-- **Claim C9** (confirmed). For every crop with positive size — and
`process_video` invokes recognition only on such crops, as the third
conjunct shows — a recognition-engine exception on either preprocessed
variant is caught inside `detect_license_plate`, which returns the
no-candidate pair `(None, None)` instead of propagating the failure. -/
theorem recognition_failure_spec (engine : Img → Except String (List OcrResult))
    (enhanceOf threshOf : Img → Img) :
    (∀ (crop : Img) (e : String), 0 < crop.size →
      engine (enhanceOf crop) = .error e →
      detect_license_plate engine enhanceOf threshOf crop = some (none, none)) ∧
    (∀ (crop : Img) (r1 : List OcrResult) (e : String), 0 < crop.size →
      engine (enhanceOf crop) = .ok r1 → engine (threshOf crop) = .error e →
      detect_license_plate engine enhanceOf threshOf crop = some (none, none)) ∧
    (∀ (sqrtFn : ℚ → ℚ) (ppm : ℚ) (frameImg : Img) (limit : ℚ)
      (z : ℤ × ℤ × ℤ × ℤ) (s : DetectorState) (d : Detection)
      (frame_count : Nat) (fps : ℚ),
      (processDetection sqrtFn ppm engine enhanceOf threshOf frameImg limit z
        s d frame_count fps).ocrInvoked = true →
      0 < (cropImg frameImg d.bbox.2.1 d.bbox.2.2.2 d.bbox.1 d.bbox.2.2.1).size) := by
  have hvalid : ∀ crop : Img, 0 < crop.size →
      ¬ (crop.size = 0 ∨ crop.height = 0 ∨ crop.width = 0) := by
    intro crop hpos hcontra
    rcases hcontra with h | h | h
    · exact absurd h (Nat.pos_iff_ne_zero.mp hpos)
    · unfold Img.size at hpos
      rw [h] at hpos
      simp at hpos
    · unfold Img.size at hpos
      rw [h] at hpos
      simp at hpos
  refine ⟨?_, ?_, ?_⟩
  · intro crop e hpos herr
    unfold detect_license_plate
    rw [if_neg (hvalid crop hpos), herr]
  · intro crop r1 e hpos hok herr
    unfold detect_license_plate
    rw [if_neg (hvalid crop hpos), hok, herr]
  · intro sqrtFn ppm frameImg limit z s d frame_count fps h
    unfold processDetection at h
    simp only [] at h
    exact (of_decide_eq_true h).2

/-- Witness for `recognition_failure_spec`: an engine that raises on every
crop yields `(None, None)` on a nonempty crop. -/
theorem recognition_failure_witness :
    0 < smallImg.size ∧
    detect_license_plate c9Engine id id smallImg = some (none, none) :=
  ⟨by decide,
   (recognition_failure_spec c9Engine id id).1 smallImg "cuda out of memory"
     (by decide) rfl⟩

/-!
Claim C10: the per-sample plate cache and the bounded history.
-/

theorem appendTrunc_suffix (t : List Sample) (s : Sample) :
    (appendTrunc t s).IsSuffix (t ++ [s]) := by
  unfold appendTrunc
  simp only []
  split
  · exact List.drop_suffix _ _
  · exact List.suffix_refl _

theorem appendTrunc_le15 (t : List Sample) (s : Sample) :
    (appendTrunc t s).length ≤ 15 := by
  unfold appendTrunc
  simp only []
  split
  · rw [List.length_drop]
    omega
  · rename_i h
    rw [not_lt] at h
    exact h

theorem appendTrunc_length (t : List Sample) (s : Sample) :
    (appendTrunc t s).length = min (t.length + 1) 15 := by
  unfold appendTrunc
  simp only []
  split
  · rename_i h
    rw [List.length_drop]
    simp only [List.length_append, List.length_cons, List.length_nil] at h ⊢
    omega
  · rename_i h
    rw [not_lt] at h
    simp only [List.length_append, List.length_cons, List.length_nil] at h ⊢
    omega

theorem foldl_appendTrunc_suffix :
    ∀ (samples : List Sample) (t : List Sample),
      (samples.foldl appendTrunc t).IsSuffix (t ++ samples) := by
  intro samples
  induction samples with
  | nil => intro t; simp
  | cons s ss ih =>
    intro t
    simp only [List.foldl_cons]
    have h1 := ih (appendTrunc t s)
    have h2 : (appendTrunc t s ++ ss).IsSuffix ((t ++ [s]) ++ ss) := by
      obtain ⟨w, hw⟩ := appendTrunc_suffix t s
      exact ⟨w, by rw [← List.append_assoc, hw]⟩
    have h3 : (t ++ [s]) ++ ss = t ++ s :: ss := by simp
    exact h1.trans (h3 ▸ h2)

theorem foldl_appendTrunc_le15 :
    ∀ (samples : List Sample) (t : List Sample), samples ≠ [] →
      (samples.foldl appendTrunc t).length ≤ 15 := by
  intro samples
  induction samples with
  | nil => intro t h; exact absurd rfl h
  | cons s ss ih =>
    intro t _
    simp only [List.foldl_cons]
    cases hss : ss with
    | nil => simpa using appendTrunc_le15 t s
    | cons a b =>
      rw [← hss]
      exact ih _ (by rw [hss]; simp)

theorem suffix_of_append_of_le {α : Type} {l a b : List α}
    (h : l.IsSuffix (a ++ b)) (hl : l.length ≤ b.length) : l.IsSuffix b := by
  obtain ⟨w, hw⟩ := h
  have hlen : w.length + l.length = a.length + b.length := by
    have h2 := congrArg List.length hw
    simpa using h2
  have hsplit : w = w.take a.length ++ w.drop a.length :=
    (List.take_append_drop _ _).symm
  rw [hsplit, List.append_assoc] at hw
  have htake : (w.take a.length).length = a.length := by
    rw [List.length_take]
    omega
  exact ⟨w.drop a.length, (List.append_inj hw htake).2⟩

theorem getCachedPlate_none {ps : List Sample}
    (h : ∀ x ∈ ps, x.license_plate = none) : getCachedPlate ps = none := by
  unfold getCachedPlate
  have hfind : ps.reverse.find? (fun p => !(p.license_plate.getD "").isEmpty) = none := by
    rw [List.find?_eq_none]
    intro x hx
    rw [h x (List.mem_reverse.mp hx)]
    decide
  rw [hfind]

theorem getCachedPlate_some {ps : List Sample} {t : String} {b : Option Quad}
    (h : getCachedPlate ps = some (t, b)) :
    ∃ x ∈ ps, x.license_plate = some t ∧ t ≠ "" := by
  unfold getCachedPlate at h
  cases hf : ps.reverse.find? (fun p => !(p.license_plate.getD "").isEmpty) with
  | none => rw [hf] at h; exact absurd h (by simp)
  | some p =>
    rw [hf] at h
    simp only [] at h
    injection h with h
    injection h with h1 h2
    have hp := List.find?_some hf
    have hpm := List.mem_reverse.mp (List.mem_of_find?_eq_some hf)
    cases hlp : p.license_plate with
    | none =>
      have hp2 : ("" : String).isEmpty = false := by simpa [hlp] using hp
      exact absurd hp2 (by decide)
    | some t2 =>
      have hp2 : t2.isEmpty = false := by simpa [hlp] using hp
      have ht2 : t2 ≠ "" := by
        intro he
        rw [he] at hp2
        exact absurd hp2 (by decide)
      have ht : t2 = t := by
        rw [hlp] at h1
        simpa using h1
      exact ⟨p, hpm, by rw [hlp, ht], by rw [← ht]; exact ht2⟩

theorem cacheLookupStep_none (s2 : DetectorState) (vid : Nat)
    (hnone : ∀ ps, dfind vid s2.vehicle_tracks = some ps →
      ∀ x ∈ ps, x.license_plate = none) :
    cacheLookupStep s2 vid = (none, none, s2) := by
  unfold cacheLookupStep
  cases hdf : dfind vid s2.vehicle_tracks with
  | none => rfl
  | some ps =>
    dsimp only []
    rw [getCachedPlate_none (hnone ps hdf)]

/-- **Claim C10** (confirmed). (1) After every append the track history is
the at-most-15 most recent samples (a suffix of the old history plus the
new sample, of length `min (old+1) 15`). (2) A cached plate is returned
only if one of the (at most 15) retained samples carries it. (3) If 15 or
more plateless samples have been appended since the last plate-bearing
sample, the cache lookup returns nothing. (4) On a frame where recognition
is skipped and the assigned track's retained history carries no plate, the
per-detection step's `license_plate` is `None` and any emitted record's
`license_plate` field is `"N/A"`. -/
theorem plate_cache_spec :
    (∀ (track : List Sample) (s : Sample),
      (appendTrunc track s).length = min (track.length + 1) 15 ∧
      (appendTrunc track s).IsSuffix (track ++ [s])) ∧
    (∀ (ps : List Sample) (t : String) (b : Option Quad),
      getCachedPlate ps = some (t, b) →
      ∃ x ∈ ps, x.license_plate = some t ∧ t ≠ "") ∧
    (∀ (t0 : List Sample) (samples : List Sample), 15 ≤ samples.length →
      (∀ x ∈ samples, x.license_plate = none) →
      getCachedPlate (samples.foldl appendTrunc t0) = none) ∧
    (∀ (sqrtFn : ℚ → ℚ) (ppm : ℚ)
      (engine : Img → Except String (List OcrResult)) (enhanceOf threshOf : Img → Img)
      (frameImg : Img) (limit : ℚ) (z : ℤ × ℤ × ℤ × ℤ) (s : DetectorState)
      (d : Detection) (frame_count : Nat) (fps : ℚ),
      (processDetection sqrtFn ppm engine enhanceOf threshOf frameImg limit z
        s d frame_count fps).ocrInvoked = false →
      (∀ ps, dfind (assign_vehicle_id s d.center frame_count).1
        ((calculate_speed sqrtFn ppm (assign_vehicle_id s d.center frame_count).2
          (assign_vehicle_id s d.center frame_count).1 d.center frame_count
          fps).2.vehicle_tracks) = some ps →
        ∀ x ∈ ps, x.license_plate = none) →
      (processDetection sqrtFn ppm engine enhanceOf threshOf frameImg limit z
        s d frame_count fps).license_plate = none ∧
      (∀ r, (processDetection sqrtFn ppm engine enhanceOf threshOf frameImg limit z
        s d frame_count fps).record = some r → r.license_plate = "N/A")) := by
  refine ⟨?_, ?_, ?_, ?_⟩
  · intro track s
    exact ⟨appendTrunc_length track s, appendTrunc_suffix track s⟩
  · intro ps t b h
    exact getCachedPlate_some h
  · intro t0 samples hlen hplates
    have hle : (samples.foldl appendTrunc t0).length ≤ 15 :=
      foldl_appendTrunc_le15 samples t0
        (by intro he; rw [he] at hlen; simp at hlen)
    have hsufs : (samples.foldl appendTrunc t0).IsSuffix samples :=
      suffix_of_append_of_le (foldl_appendTrunc_suffix samples t0)
        (le_trans hle hlen)
    apply getCachedPlate_none
    intro x hx
    exact hplates x (hsufs.subset hx)
  · intro sqrtFn ppm engine enhanceOf threshOf frameImg limit z s d frame_count fps
      hskip hnone
    unfold processDetection at hskip ⊢
    simp only [] at hskip ⊢
    have hc := of_decide_eq_false hskip
    rw [if_neg hc, cacheLookupStep_none _ _ hnone]
    refine ⟨rfl, ?_⟩
    intro r hr
    split at hr
    · injection hr with hr
      rw [← hr]
      rfl
    · exact absurd hr (by simp)

/-- Witness for `plate_cache_spec`: a history whose only plate-bearing
sample is followed by 15 plateless appends no longer yields a cached
plate. -/
theorem plate_cache_witness :
    15 ≤ (List.replicate 15 plainSample).length ∧
    getCachedPlate ((List.replicate 15 plainSample).foldl appendTrunc [platedSample]) =
      none :=
  ⟨by decide,
   plate_cache_spec.2.2.1 [platedSample] (List.replicate 15 plainSample)
     (by decide) (by decide)⟩
